import Mathlib

/-!
Verification of the ARIEL core (src/src/core/ariel_algorithm.py) against its
natural-language specification.

This file gives a shallow embedding of the parts of the source the claims
are about: the emotional/incentive feedback component (`EmotionalState`,
`IncentiveSystem`), the self-healing engine (`SelfHealingSystem`: error log,
health metrics, `log_error`, `diagnose`, `heal` and the five recovery
strategies), the quantum-inspired memory bank (only what the recovery
strategies touch), and the warp-phase orchestrator (`WarpSystem`).

Modelling conventions:
- Python floats are modelled as rationals (ℚ); all arithmetic in the
  embedded code is exact (+, -, *, /, min, max, mean), so ℚ is a faithful
  idealisation of the algebraic structure of the source.
- Python exceptions (`ValueError`, `TypeError`) are modelled with `Except`.
- `time.time()` and host-written signals (team efficiency, error rate,
  resource overload) are external inputs: operations take them as explicit
  parameters.
- `random.random()` / `random.gauss(...)` draws are modelled by an explicit
  stream of pre-drawn values (`List ℚ`) threaded through the state.
- Python's `sorted(..., reverse=True)` is a stable descending sort; it is
  embedded as an insertion sort (`sortByDesc`) proved below to be sorted
  and stable, which characterises it uniquely.
- Python dicts iterate in insertion order; they are embedded as association
  lists updated in place and extended at the end (`bumpCount`), or as fixed
  field lists in declaration order (`metricsList`, `emotionNames`).
-/

namespace Ariel

/-- Clamp to the interval `[0, 100]`, the Python idiom `max(0, min(100, x))`. -/
def clamp100 (x : ℚ) : ℚ := max 0 (min 100 x)

/-- Python string containment `a in b` (substring test), on character lists. -/
def listPrefixOf : List Char → List Char → Bool
  | [], _ => true
  | _ :: _, [] => false
  | a :: as, b :: bs => a = b && listPrefixOf as bs

/-- Whether `pat` occurs as a contiguous substring of `l`. -/
def listInfixOf (pat : List Char) : List Char → Bool
  | [] => pat.isEmpty
  | c :: cs => listPrefixOf pat (c :: cs) || listInfixOf pat cs

/-- Python `key in s` for strings: substring containment. -/
def substrOf (pat s : String) : Bool := listInfixOf pat.data s.data

/-- Python `s.replace('_', ' ')` for a single-character pattern. -/
def replaceUnderscore (s : String) : String :=
  ⟨s.data.map (fun c => if c = '_' then ' ' else c)⟩

/-- Python exceptions raised by the embedded code. -/
inductive PyError where
  | valueError : PyError
  | typeError : PyError
deriving DecidableEq

/-! ## Stable descending sort

`sorted(issues, key=lambda x: ..., reverse=True)` in Python is a stable sort
by the key, descending.  `sortByDesc` inserts each element, taken from the
front of the original list, into the sorted rest; the element must therefore
be placed before any element with an equal key (it preceded them originally),
i.e. before the first element whose key is less than or equal to its own.
Sortedness and stability are proved below; together they characterise
Python's sort uniquely. -/

/-- Insert `x` into `l` before the first element whose key is ≤ the key of
`x`. -/
def insertByDesc {α : Type} (f : α → ℚ) (x : α) : List α → List α
  | [] => [x]
  | y :: ys => if f y ≤ f x then x :: y :: ys else y :: insertByDesc f x ys

/-- Stable descending insertion sort by key `f`; the embedding of Python's
`sorted(l, key=f, reverse=True)`. -/
def sortByDesc {α : Type} (f : α → ℚ) : List α → List α
  | [] => []
  | x :: xs => insertByDesc f x (sortByDesc f xs)

/-! ## EmotionalState (source lines 297–378)

Eight primary emotions (0–100 scale, default 50) plus three derived metrics
recomputed after every mutation.  `update_emotion` rejects a name with
`ValueError` only when the object has no attribute of that name (`hasattr`);
names of the derived metrics and of the methods are attributes too. -/

structure EmotionalState where
  joy : ℚ
  sadness : ℚ
  fear : ℚ
  anger : ℚ
  trust : ℚ
  disgust : ℚ
  anticipation : ℚ
  surprise : ℚ
  stability : ℚ
  adaptability : ℚ
  social_alignment : ℚ
deriving DecidableEq

/-- The 8 primary emotion names, in the source's fixed enumeration order. -/
def emotionNames : List String :=
  ["joy", "sadness", "fear", "anger", "trust", "disgust", "anticipation", "surprise"]

/-- Names of the derived metrics: data attributes of the object but not
primary emotions. -/
def derivedNames : List String := ["stability", "adaptability", "social_alignment"]

/-- Method names of the Python class: `hasattr` is also true for these, but
reading them yields a bound method, so `current + value` raises `TypeError`. -/
def methodNames : List String :=
  ["update_derived_metrics", "update_emotion", "get_dominant_emotion",
   "get_emotional_vector", "emotional_distance"]

/-- Python `getattr(self, name)` restricted to the eleven float fields.
Only ever used with names for which `hasattr` holds. -/
def getAttr (s : EmotionalState) (name : String) : ℚ :=
  if name = "joy" then s.joy
  else if name = "sadness" then s.sadness
  else if name = "fear" then s.fear
  else if name = "anger" then s.anger
  else if name = "trust" then s.trust
  else if name = "disgust" then s.disgust
  else if name = "anticipation" then s.anticipation
  else if name = "surprise" then s.surprise
  else if name = "stability" then s.stability
  else if name = "adaptability" then s.adaptability
  else if name = "social_alignment" then s.social_alignment
  else 0

/-- Python `setattr(self, name, v)` on the eleven float fields. -/
def setAttr (s : EmotionalState) (name : String) (v : ℚ) : EmotionalState :=
  if name = "joy" then { s with joy := v }
  else if name = "sadness" then { s with sadness := v }
  else if name = "fear" then { s with fear := v }
  else if name = "anger" then { s with anger := v }
  else if name = "trust" then { s with trust := v }
  else if name = "disgust" then { s with disgust := v }
  else if name = "anticipation" then { s with anticipation := v }
  else if name = "surprise" then { s with surprise := v }
  else if name = "stability" then { s with stability := v }
  else if name = "adaptability" then { s with adaptability := v }
  else if name = "social_alignment" then { s with social_alignment := v }
  else s

/-- Embeds `update_derived_metrics` (source lines 319–328). -/
def update_derived_metrics (s : EmotionalState) : EmotionalState :=
  { s with
    stability := (s.joy + s.trust - s.fear - s.anger) / 2
    adaptability := (s.anticipation + s.surprise - s.sadness) / 2
    social_alignment := s.trust - s.disgust }

/-- The decay pass of `update_emotion`: every primary emotion other than
`emotion` is multiplied by `decay_factor`. -/
def decayOthers (emotion : String) (decay_factor : ℚ) (s : EmotionalState) : EmotionalState :=
  emotionNames.foldl
    (fun st e => if e = emotion then st else setAttr st e (getAttr st e * decay_factor))
    s

/-- Embeds `update_emotion` (source lines 330–346).  The guard is `hasattr`, so any
attribute name passes — including the derived metrics and the methods.  For a
method name, `getattr` returns a bound method and `current + value` raises
`TypeError` before any mutation.  For a data attribute the target is set to
`max(0, min(100, current + value))`, the other primary emotions decay, and
the derived metrics are recomputed. -/
def update_emotion (s : EmotionalState) (emotion : String) (value : ℚ)
    (decay_factor : ℚ := 9/10) : Except PyError EmotionalState :=
  if emotion ∈ emotionNames ∨ emotion ∈ derivedNames ∨ emotion ∈ methodNames then
    if emotion ∈ methodNames then .error .typeError
    else
      let s1 := setAttr s emotion (clamp100 (getAttr s emotion + value))
      let s2 := decayOthers emotion decay_factor s1
      .ok (update_derived_metrics s2)
  else .error .valueError

/-- Total wrapper used where the source calls `update_emotion` with a name
drawn from the fixed 8-emotion table, so the error branch is unreachable. -/
def updateEmotionTotal (s : EmotionalState) (emotion : String) (value : ℚ)
    (decay_factor : ℚ := 9/10) : EmotionalState :=
  match update_emotion s emotion value decay_factor with
  | .ok s2 => s2
  | .error _ => s

/-- The default `EmotionalState()`: all eight intensities 50, derived metrics
computed by `__post_init__`. -/
def EmotionalState.default : EmotionalState :=
  update_derived_metrics ⟨50, 50, 50, 50, 50, 50, 50, 50, 0, 0, 0⟩

/-! ## IncentiveSystem (source lines 380–477)

Reward bookkeeping: fixed base weights, two scaling factors, and an
unbounded reward history of `(category, scaledValue, timestamp)` triples. -/

structure IncentiveSystem where
  curiosity_reward : ℚ
  efficiency_reward : ℚ
  cooperation_reward : ℚ
  innovation_reward : ℚ
  error_penalty : ℚ
  resource_waste_penalty : ℚ
  conflict_penalty : ℚ
  stagnation_penalty : ℚ
  reward_scaling : ℚ
  penalty_scaling : ℚ
  reward_history : List (String × ℚ × ℚ)
deriving DecidableEq

/-- The dataclass defaults of `IncentiveSystem`. -/
def IncentiveSystem.default : IncentiveSystem :=
  { curiosity_reward := 5, efficiency_reward := 3, cooperation_reward := 4,
    innovation_reward := 6, error_penalty := -3, resource_waste_penalty := -4,
    conflict_penalty := -5, stagnation_penalty := -2,
    reward_scaling := 1, penalty_scaling := 1, reward_history := [] }

/-- The reward categories: exactly the attribute names ending in `_reward`,
which is what `hasattr(self, f"(reward_type)_reward")` tests. -/
def rewardTypeNames : List String := ["curiosity", "efficiency", "cooperation", "innovation"]

/-- Python `getattr(self, f"(reward_type)_reward")` for the four reward attributes. -/
def baseReward (inc : IncentiveSystem) (reward_type : String) : ℚ :=
  if reward_type = "curiosity" then inc.curiosity_reward
  else if reward_type = "efficiency" then inc.efficiency_reward
  else if reward_type = "cooperation" then inc.cooperation_reward
  else inc.innovation_reward

/-- The per-category two-emotion update performed by `apply_reward`
(source lines 414–426). -/
def rewardEmotionUpdate (reward_type : String) (scaled : ℚ) (es : EmotionalState) :
    EmotionalState :=
  if reward_type = "curiosity" then
    updateEmotionTotal (updateEmotionTotal es "surprise" (scaled * (5/10))) "joy" (scaled * (3/10))
  else if reward_type = "efficiency" then
    updateEmotionTotal (updateEmotionTotal es "joy" (scaled * (4/10))) "trust" (scaled * (2/10))
  else if reward_type = "cooperation" then
    updateEmotionTotal (updateEmotionTotal es "trust" (scaled * (5/10))) "joy" (scaled * (2/10))
  else if reward_type = "innovation" then
    updateEmotionTotal (updateEmotionTotal es "surprise" (scaled * (3/10))) "joy" (scaled * (4/10))
  else es

/-- Embeds `apply_reward` (source lines 403–428).  `now` models `time.time()`.
Returns the updated incentive system, the updated emotional state, and the
scaled reward; raises `ValueError` on an unknown reward type. -/
def apply_reward (inc : IncentiveSystem) (reward_type : String) (magnitude : ℚ)
    (es : EmotionalState) (now : ℚ) :
    Except PyError (IncentiveSystem × EmotionalState × ℚ) :=
  if reward_type ∈ rewardTypeNames then
    let scaled := baseReward inc reward_type * magnitude * inc.reward_scaling
    let inc2 := { inc with reward_history := inc.reward_history ++ [(reward_type, scaled, now)] }
    .ok (inc2, rewardEmotionUpdate reward_type scaled es, scaled)
  else .error .valueError

/-- Embeds `get_recent_rewards` (source lines 457–462): the `(type, value)` pairs of
history records whose timestamp lies within `time_window` of `now`.  A pure
query: it takes the state and returns only a list, so the history cannot be
mutated by it. -/
def get_recent_rewards (inc : IncentiveSystem) (now : ℚ) (time_window : ℚ) :
    List (String × ℚ) :=
  (inc.reward_history.filter (fun r => decide (now - r.2.2 ≤ time_window))).map
    (fun r => (r.1, r.2.1))

/-! ## SelfHealingSystem: data model, `log_error`, `diagnose`
(source lines 483–559) -/

/-- One entry of the error log (the Python dict appended by `log_error`).
The `details` dict is carried opaquely by the source and never read by any
of its logic, so it is not modelled. -/
structure ErrorRecord where
  type : String
  severity : ℚ
  timestamp : ℚ
  healed : Bool
deriving DecidableEq

/-- The five health metrics, all initialised to 100. -/
structure HealthMetrics where
  memory_integrity : ℚ
  emotional_balance : ℚ
  resource_efficiency : ℚ
  decision_quality : ℚ
  communication_reliability : ℚ
deriving DecidableEq

/-- The fresh `health_metrics` dict of `__init__`. -/
def HealthMetrics.initial : HealthMetrics := ⟨100, 100, 100, 100, 100⟩

/-- The list `self.health_metrics.items()` in the dict's insertion order. -/
def metricsList (m : HealthMetrics) : List (String × ℚ) :=
  [("memory_integrity", m.memory_integrity),
   ("emotional_balance", m.emotional_balance),
   ("resource_efficiency", m.resource_efficiency),
   ("decision_quality", m.decision_quality),
   ("communication_reliability", m.communication_reliability)]

/-- Append to a `deque(maxlen=cap)`: push right, evict from the left when
over capacity. -/
def pushBounded {α : Type} (cap : ℕ) (x : α) (l : List α) : List α :=
  let l2 := l ++ [x]
  l2.drop (l2.length - cap)

/-- The metric update of `log_error` (source lines 514–524): each error type
in the static category table decreases exactly one metric, floored at 0. -/
def logErrorMetrics (error_type : String) (severity : ℚ) (m : HealthMetrics) :
    HealthMetrics :=
  if error_type = "memory_corruption" ∨ error_type = "memory_leak" then
    { m with memory_integrity := max 0 (m.memory_integrity - severity) }
  else if error_type = "emotional_instability" ∨ error_type = "emotional_deadlock" then
    { m with emotional_balance := max 0 (m.emotional_balance - severity) }
  else if error_type = "resource_depletion" ∨ error_type = "resource_contention" then
    { m with resource_efficiency := max 0 (m.resource_efficiency - severity) }
  else if error_type = "decision_paralysis" ∨ error_type = "decision_oscillation" then
    { m with decision_quality := max 0 (m.decision_quality - severity) }
  else if error_type = "communication_failure" ∨ error_type = "protocol_violation" then
    { m with communication_reliability := max 0 (m.communication_reliability - severity) }
  else m

/-- Embeds `log_error` (source lines 504–524) acting on the log and the metrics;
`now` models `time.time()`.  The log is a `deque(maxlen=100)`. -/
def log_error (error_type : String) (severity : ℚ) (now : ℚ)
    (log : List ErrorRecord) (m : HealthMetrics) :
    List ErrorRecord × HealthMetrics :=
  (pushBounded 100 ⟨error_type, severity, now, false⟩ log,
   logErrorMetrics error_type severity m)

/-- A diagnosed issue.  Critical issues carry no `count`; recurring issues
carry the occurrence count. -/
structure Issue where
  type : String
  severity : ℚ
  count : Option ℕ
  description : String
deriving DecidableEq

/-- The critical-metric issues of `diagnose` (source lines 530–537), in
metric order: every metric below 50 yields a critical issue of severity
`(50 - value) / 50 * 10`. -/
def criticalIssues (m : HealthMetrics) : List Issue :=
  (metricsList m).filterMap (fun p =>
    if p.2 < 50 then
      some ⟨"critical_" ++ p.1, (50 - p.2) / 50 * 10, none,
            "Critical " ++ replaceUnderscore p.1 ++ " issue detected"⟩
    else none)

/-- In-place update of the `error_counts` dict: bump the entry for `t` if
present, else append a fresh one at the end (Python dict insertion order). -/
def bumpCount (t : String) (sev : ℚ) : List (String × ℕ × ℚ) → List (String × ℕ × ℚ)
  | [] => [(t, 1, sev)]
  | (u, c, tot) :: rest =>
      if u = t then (u, c + 1, tot + sev) :: rest
      else (u, c, tot) :: bumpCount t sev rest

/-- The `error_counts` dict of `diagnose` (source lines 540–547): per error
type, the count and total severity of its unhealed log entries, keyed in
first-occurrence order. -/
def errorCounts (log : List ErrorRecord) : List (String × ℕ × ℚ) :=
  log.foldl (fun acc e => if e.healed then acc else bumpCount e.type e.severity acc) []

/-- The recurring-error issues of `diagnose` (source lines 550–557): every
type with at least 3 unhealed entries yields an issue with the mean severity
and the occurrence count. -/
def recurringIssues (log : List ErrorRecord) : List Issue :=
  (errorCounts log).filterMap (fun e =>
    if 3 ≤ e.2.1 then
      some ⟨"recurring_" ++ e.1, e.2.2 / e.2.1, some e.2.1,
            "Recurring " ++ replaceUnderscore e.1 ++ " detected"⟩
    else none)

/-- The issue list of `diagnose` before sorting, in discovery order:
critical issues first, then recurring issues. -/
def rawIssues (log : List ErrorRecord) (m : HealthMetrics) : List Issue :=
  criticalIssues m ++ recurringIssues log

/-- Embeds `diagnose` (source lines 526–559): the raw issues sorted by severity
descending (Python's stable `sorted(..., reverse=True)`). -/
def diagnose (log : List ErrorRecord) (m : HealthMetrics) : List Issue :=
  sortByDesc (fun i => i.severity) (rawIssues log m)

/-- Number of unhealed log entries of type `t` — the specification-level
reading of the `error_counts` entry for `t`. -/
def countUnhealed (log : List ErrorRecord) (t : String) : ℕ :=
  (log.filter (fun e => !e.healed && e.type = t)).length

/-- Total severity of the unhealed log entries of type `t`. -/
def totalSeverity (log : List ErrorRecord) (t : String) : ℚ :=
  ((log.filter (fun e => !e.healed && e.type = t)).map (fun e => e.severity)).sum

/-! ## QuantumMemoryBank (source lines 147–291)

Only the classical-simulation branch is embedded (the qiskit import guard),
and only the operations reached from the recovery strategies: `store`,
`retrieve`, `get_access_patterns`, `optimize_layout`.  The write-only
`memory_amplitudes` array (cos/sin of the stored value, never read by any
code path) is not modelled.  Access-history timestamps are recorded by the
source but never read, so entries keep only `(kind, index)`.  The gaussian
noise of `retrieve` and the `random.random()` draws of the deep-healing scrub
come from an explicit stream of pre-drawn values. -/

structure MemoryBank where
  size : ℕ
  values : List ℚ
  accessHist : List (String × ℕ)
  entanglement : List (List ℚ)
deriving DecidableEq

/-- A fresh `QuantumMemoryBank(size=10)` with zeroed values and entanglement map. -/
def MemoryBank.default : MemoryBank :=
  ⟨10, List.replicate 10 0, [], List.replicate 10 (List.replicate 10 0)⟩

/-- Embeds `store` (source lines 162–190): clamp the value to `[0,1]` after scaling
by 1/100, write the slot, record the access.  Callers in the embedded code
always pass an in-range index (the source raises `ValueError` otherwise). -/
def MemoryBank.store (mb : MemoryBank) (index : ℕ) (value : ℚ) : MemoryBank :=
  let norm := max 0 (min 1 (value / 100))
  { mb with values := mb.values.set index norm,
            accessHist := pushBounded 100 ("store", index) mb.accessHist }

/-- Embeds `retrieve` (source lines 192–220, classical branch): record the access,
add one gaussian draw of noise, clamp to `[0,1]` and scale by 100.  Returns
the value, the updated bank, and the remaining draw stream. -/
def MemoryBank.retrieve (mb : MemoryBank) (rand : List ℚ) (index : ℕ) :
    ℚ × MemoryBank × List ℚ :=
  let mb1 := { mb with accessHist := pushBounded 100 ("retrieve", index) mb.accessHist }
  let noise := rand.headD 0
  let prob := mb1.values.getD index 0 + noise
  (max 0 (min 1 prob) * 100, mb1, rand.tail)

/-- Embeds `get_access_patterns` (source lines 247–252) at one index. -/
def MemoryBank.accessCount (mb : MemoryBank) (i : ℕ) : ℕ :=
  mb.accessHist.countP (fun a => decide (a.2 = i))

/-- Embeds `optimize_layout` (source lines 254–291, classical branch): remap slots
so the most-accessed come first (stable descending sort on access counts),
and permute the entanglement map accordingly. -/
def MemoryBank.optimize_layout (mb : MemoryBank) : MemoryBank :=
  let sortedIdx := sortByDesc (fun i => (mb.accessCount i : ℚ)) (List.range mb.size)
  { mb with
    values := sortedIdx.map (fun old => mb.values.getD old 0),
    entanglement := sortedIdx.map (fun oi => sortedIdx.map (fun oj =>
      (mb.entanglement.getD oi []).getD oj 0)) }

/-! ## SelfHealingSystem: recovery strategies and `heal`
(source lines 561–709)

The state a `heal` call can reach: the healing engine's own log and metrics,
and through `self.agent` the emotional state, the decision parameters and
the memory bank. -/

structure HealState where
  log : List ErrorRecord
  metrics : HealthMetrics
  emotional : EmotionalState
  decision_threshold : ℚ
  exploration_rate : ℚ
  memory : MemoryBank
  rand : List ℚ
deriving DecidableEq

/-- The state of a fresh `ARIELAgent` as far as `heal` can see it, with a
given stream of pre-drawn random values. -/
def freshHealState (rand : List ℚ) : HealState :=
  { log := [], metrics := HealthMetrics.initial, emotional := EmotionalState.default,
    decision_threshold := 6/10, exploration_rate := 1/10,
    memory := MemoryBank.default, rand := rand }

/-- Ascending insertion into a sorted list of rationals. -/
def insertAsc (x : ℚ) : List ℚ → List ℚ
  | [] => [x]
  | y :: ys => if x ≤ y then x :: y :: ys else y :: insertAsc x ys

/-- Ascending insertion sort. -/
def sortAsc : List ℚ → List ℚ
  | [] => []
  | x :: xs => insertAsc x (sortAsc xs)

/-- Embeds `np.median`: middle of the ascending-sorted values, averaging the two
middle elements for even length. -/
def medianOf (l : List ℚ) : ℚ :=
  let s := sortAsc l
  let n := s.length
  if n = 0 then 0
  else if n % 2 = 1 then s.getD (n / 2) 0
  else (s.getD (n / 2 - 1) 0 + s.getD (n / 2) 0) / 2

/-- The ASCII single-quote character used by Python's `repr` of strings. -/
def quoteChar : Char := Char.ofNat 39

/-- Python `repr` of a plain string. -/
def pyStrRepr (s : String) : String :=
  String.singleton quoteChar ++ s ++ String.singleton quoteChar

/-- Python `str` of a list of strings, as interpolated by an f-string. -/
def pyListRepr (l : List String) : String :=
  "[" ++ String.intercalate ", " (l.map pyStrRepr) ++ "]"

/-- Embeds `_heal_memory_corruption` (source lines 602–629).  Always reoptimizes the
memory layout; for severity > 7 additionally snapshots the slots above 0.7,
probabilistically zeroes the non-critical slots, restores the snapshot, and
raises the metric by `min(30, severity*3)`; otherwise by `min(15, severity*2)`. -/
def heal_memory_corruption (severity : ℚ) (s : HealState) : HealState × String :=
  let mem1 := s.memory.optimize_layout
  if 7 < severity then
    let critical := (List.range mem1.size).filter
      (fun i => decide ((7 : ℚ)/10 < mem1.values.getD i 0))
    let backedUp := critical.foldl
      (fun (acc : MemoryBank × List ℚ × List (ℕ × ℚ)) i =>
        let r := acc.1.retrieve acc.2.1 i
        (r.2.1, r.2.2, acc.2.2 ++ [(i, r.1)]))
      (mem1, s.rand, [])
    let scrubbed := (List.range mem1.size).foldl
      (fun (acc : MemoryBank × List ℚ) i =>
        if i ∈ critical then acc
        else if acc.2.headD 0 < severity / 10 then (acc.1.store i 0, acc.2.tail)
        else (acc.1, acc.2.tail))
      (backedUp.1, backedUp.2.1)
    let restored := backedUp.2.2.foldl (fun (mb : MemoryBank) p => mb.store p.1 p.2) scrubbed.1
    ({ s with memory := restored, rand := scrubbed.2,
              metrics := { s.metrics with
                memory_integrity := s.metrics.memory_integrity + min 30 (severity * 3) } },
     "Deep memory healing performed")
  else
    ({ s with memory := mem1,
              metrics := { s.metrics with
                memory_integrity := s.metrics.memory_integrity + min 15 (severity * 2) } },
     "Memory layout optimization performed")

/-- Embeds `_heal_emotional_instability` (source lines 631–660): nudge the 3
emotions most deviant from the median toward it (via `update_emotion`, so
with the default 0.9 decay of the others), and raise the metric by
`min(25, severity*2.5)`. -/
def heal_emotional_instability (severity : ℚ) (s : HealState) : HealState × String :=
  let emotions := emotionNames.map (fun e => (e, getAttr s.emotional e))
  let median := medianOf (emotions.map (fun p => p.2))
  let deviations := emotions.map (fun p => (p.1, |p.2 - median|))
  let extremes := (sortByDesc (fun p => p.2) deviations).take 3
  let es2 := extremes.foldl
    (fun es p =>
      let adjustment := (median - getAttr es p.1) * min (1/2) (severity / 10)
      updateEmotionTotal es p.1 adjustment)
    s.emotional
  ({ s with emotional := es2,
            metrics := { s.metrics with
              emotional_balance := s.metrics.emotional_balance + min 25 (severity * (25/10)) } },
   "Emotional rebalancing performed on " ++ pyListRepr (extremes.map (fun p => p.1)))

/-- Embeds `_heal_resource_depletion` (source lines 662–681); the `asyncio.sleep`
calls only model latency and touch no state. -/
def heal_resource_depletion (severity : ℚ) (s : HealState) : HealState × String :=
  if 5 < severity then
    ({ s with metrics := { s.metrics with
        resource_efficiency := s.metrics.resource_efficiency + min 20 (severity * 2) } },
     "Major resource reallocation performed")
  else
    ({ s with metrics := { s.metrics with
        resource_efficiency := s.metrics.resource_efficiency + min 10 severity } },
     "Resource usage optimization performed")

/-- Embeds `_heal_decision_paralysis` (source lines 683–699): reset the decision
threshold; for severity > 6 also raise the exploration rate (capped at 0.3). -/
def heal_decision_paralysis (severity : ℚ) (s : HealState) : HealState × String :=
  let s1 := { s with decision_threshold := 6/10 }
  if 6 < severity then
    ({ s1 with exploration_rate := min (3/10) (s1.exploration_rate + severity / 20),
               metrics := { s1.metrics with
                 decision_quality := s1.metrics.decision_quality + min 30 (severity * 3) } },
     "Decision system reset with increased exploration")
  else
    ({ s1 with metrics := { s1.metrics with
        decision_quality := s1.metrics.decision_quality + min 15 (severity * (15/10)) } },
     "Decision thresholds reset")

/-- Embeds `_heal_communication_failure` (source lines 701–709). -/
def heal_communication_failure (severity : ℚ) (s : HealState) : HealState × String :=
  ({ s with metrics := { s.metrics with
      communication_reliability :=
        s.metrics.communication_reliability + min 25 (severity * (25/10)) } },
   "Communication protocols reset and reinitialized")

/-- The keys of `recovery_strategies` in dict insertion order
(source lines 489–495). -/
def recoveryStrategyKeys : List String :=
  ["memory_corruption", "emotional_instability", "resource_depletion",
   "decision_paralysis", "communication_failure"]

/-- Dispatch a strategy key to its implementation. -/
def runStrategy (key : String) (severity : ℚ) (s : HealState) : HealState × String :=
  if key = "memory_corruption" then heal_memory_corruption severity s
  else if key = "emotional_instability" then heal_emotional_instability severity s
  else if key = "resource_depletion" then heal_resource_depletion severity s
  else if key = "decision_paralysis" then heal_decision_paralysis severity s
  else heal_communication_failure severity s

/-- One entry of `actions_taken`. -/
structure HealAction where
  issue : String
  strategy : String
  result : String
deriving DecidableEq

/-- The dict returned by `heal`. -/
structure HealResult where
  status : String
  actions_taken : List HealAction
deriving DecidableEq

/-- Python `s.startswith(pre)`. -/
def startsWithStr (s pre : String) : Bool := listPrefixOf pre.data s.data

/-- Recover the base error type from an issue label (source lines 571–577):
strip a leading `critical_` or `recurring_`. -/
def stripIssueType (issue_type : String) : String :=
  if startsWithStr issue_type "critical_" then issue_type.drop 9
  else if startsWithStr issue_type "recurring_" then issue_type.drop 10
  else issue_type

/-- The body of the top-3 issue loop of `heal` (source lines 568–588): pick
the first strategy whose key is a substring of the base error type, run it,
and record the action; with no matching strategy the issue is skipped. -/
def healStep (acc : HealState × List HealAction) (issue : Issue) :
    HealState × List HealAction :=
  let error_type := stripIssueType issue.type
  match recoveryStrategyKeys.find? (fun k => substrOf k error_type) with
  | some key =>
      let r := runStrategy key issue.severity acc.1
      (r.1, acc.2 ++ [⟨issue.type, key, r.2⟩])
  | none => acc

/-- Embeds `heal` (source lines 561–600): re-diagnose; on an empty issue
list report healthy.  Otherwise run `healStep` over the top 3 issues;
afterwards mark as healed every still-unhealed log entry whose type is a
substring of some acted-on issue label. -/
def heal (s : HealState) : HealState × HealResult :=
  let issues := diagnose s.log s.metrics
  if issues.isEmpty then (s, ⟨"healthy", []⟩)
  else
    let folded := (issues.take 3).foldl healStep (s, [])
    let actions := folded.2
    let newLog := folded.1.log.map (fun e =>
      if e.healed then e
      else if actions.any (fun a => substrOf e.type a.issue) then { e with healed := true }
      else e)
    ({ folded.1 with log := newLog },
     ⟨if actions.isEmpty then "no_suitable_healing_strategy" else "healing_performed",
      actions⟩)

/-- An operation of the healing engine's external interface, for stating
invariants over arbitrary operation sequences. -/
inductive HealOp where
  | logErr (error_type : String) (severity : ℚ) (now : ℚ) : HealOp
  | heal : HealOp
deriving DecidableEq

/-- Apply one operation to the healing-engine state. -/
def stepOp (s : HealState) (op : HealOp) : HealState :=
  match op with
  | .logErr t sev now =>
      let r := log_error t sev now s.log s.metrics
      { s with log := r.1, metrics := r.2 }
  | .heal => (heal s).1

/-- Run a sequence of operations from a given state. -/
def runOps (s : HealState) (ops : List HealOp) : HealState :=
  ops.foldl stepOp s

/-- The logged severity of an operation is nonnegative (`log_error` severities
model degradation amounts; the spec's data model has `severity ≥ 0`). -/
def opSevNonneg : HealOp → Prop
  | .logErr _ sev _ => 0 ≤ sev
  | .heal => True

/-! ## WarpSystem (source lines 725–887)

The orchestrator loop `_process_phase` runs one iteration per tick.  Team
efficiencies and the error rate are fields of shared mutable objects that
the loop only reads; following the specification they are treated as
host-written signals, so each tick first writes the environment's values
into the state and then executes one loop iteration.  `time.time()` is the
environment's `now`, and the resource monitor's verdict is the environment's
`overloaded` bit. -/

structure Team where
  name : String
  is_active : Bool
  efficiency : ℚ
deriving DecidableEq

/-- Embeds `Team.process` (source lines 731–733): the placeholder returns the input. -/
def Team.process (_t : Team) (input_data : ℚ) : ℚ := input_data

/-- The orchestrator state.  `phase` is the `WarpPhase` value (1–5); `teams`
holds team1–team5 in order; `halted` records that the loop has executed its
`break`. -/
structure WarpState where
  phase : ℕ
  teams : List Team
  current_phase_start_time : ℚ
  is_light_speed : Bool
  complexity_score : ℤ
  error_rate : ℚ
  task_history : List ℚ
  halted : Bool
deriving DecidableEq

/-- The environment one tick observes: the clock, the resource monitor's
verdict, and the host-written error rate and team efficiencies. -/
structure TickEnv where
  now : ℚ
  overloaded : Bool
  error_rate : ℚ
  efficiencies : List ℚ
deriving DecidableEq

/-- The `all_teams` dict of `__init__` (source lines 758–764). -/
def initialTeams : List Team :=
  [⟨"Initialization", false, 1/2⟩, ⟨"Capturing Cohesion", false, 1/2⟩,
   ⟨"Adversarial Cortex", false, 1/2⟩, ⟨"Secondary Hyper-Compression", false, 1/2⟩,
   ⟨"Warp Drive", false, 1/2⟩]

/-- Set the activation flag of the team at `idx` (0-based; `team(n)` is at
index `n - 1`), the embedding of assigning `all_teams[f"team(n)"].is_active`. -/
def setTeamActive : List Team → ℕ → Bool → List Team
  | [], _, _ => []
  | t :: ts, 0, b => { t with is_active := b } :: ts
  | t :: ts, n + 1, b => t :: setTeamActive ts n b

/-- Embeds `start_warp_sequence` (source lines 782–786) at start time `t0`:
phase INITIALIZATION, team1 activated, timer reset; the loop then runs. -/
def start_warp_sequence (t0 : ℚ) : WarpState :=
  { phase := 1, teams := setTeamActive initialTeams 0 true,
    current_phase_start_time := t0, is_light_speed := false,
    complexity_score := 0, error_rate := 0, task_history := [], halted := false }

/-- Embeds `_check_team_efficiency` (source lines 816–823): returns whether the team
has sustained the threshold for the duration, and the (possibly reset) phase
timer — the source resets `current_phase_start_time` when efficiency is
below threshold. -/
def check_team_efficiency (s : WarpState) (now : ℚ) (idx : ℕ)
    (threshold duration : ℚ) : Bool × ℚ :=
  let team := s.teams.getD idx ⟨"", false, 0⟩
  if threshold ≤ team.efficiency then
    (decide (duration ≤ now - s.current_phase_start_time), s.current_phase_start_time)
  else (false, now)

/-- Embeds `_advance_phase` (source lines 825–835): increment the phase, activate
the new phase's team, reset the timer, add 10 to the complexity score. -/
def advance_phase (s : WarpState) (now : ℚ) : WarpState :=
  { s with phase := s.phase + 1,
           teams := setTeamActive s.teams s.phase true,
           current_phase_start_time := now,
           complexity_score := s.complexity_score + 10 }

/-- Embeds `_revert_phase` (source lines 837–843): if above phase 1, decrement the
phase, deactivate the team of the phase just left, reset the timer, subtract
10 from the complexity score; at phase 1 do nothing. -/
def revert_phase (s : WarpState) (now : ℚ) : WarpState :=
  if 1 < s.phase then
    { s with phase := s.phase - 1,
             teams := setTeamActive s.teams (s.phase - 1) false,
             current_phase_start_time := now,
             complexity_score := s.complexity_score - 10 }
  else s

/-- Embeds `_initiate_warp_drive` (source lines 844–848) followed by the loop's
`break`: light speed on, every team active, loop halted. -/
def initiate_warp_drive (s : WarpState) : WarpState :=
  { s with is_light_speed := true,
           teams := s.teams.map (fun t => { t with is_active := true }),
           halted := true }

/-- Overwrite team efficiencies with the host-written values, position by
position. -/
def applyEff : List Team → List ℚ → List Team
  | ts, [] => ts
  | [], _ => []
  | t :: ts, q :: qs => { t with efficiency := q } :: applyEff ts qs

/-- Write the host-controlled signals into the state at the top of a tick. -/
def applyEnv (s : WarpState) (e : TickEnv) : WarpState :=
  { s with teams := applyEff s.teams e.efficiencies,
           error_rate := e.error_rate }

/-- The advancement step of the dispatch chain for a non-terminal phase whose
team sits at `idx` (source lines 802–809): on a sustained-efficiency success
advance, otherwise keep the (possibly reset) timer. -/
def dispatchCheck (s : WarpState) (now : ℚ) (idx : ℕ) : WarpState :=
  let c := check_team_efficiency s now idx (8/10) 3
  if c.1 then advance_phase s now
  else { s with current_phase_start_time := c.2 }

/-- The `elif` dispatch chain of the loop body (source lines 802–811): each
non-terminal phase is gated on its team's sustained efficiency; at
WARP_DRIVE the terminal action runs and the loop breaks. -/
def dispatchPhase (s : WarpState) (now : ℚ) : WarpState :=
  if s.phase = 1 then dispatchCheck s now 0
  else if s.phase = 2 then dispatchCheck s now 1
  else if s.phase = 3 then dispatchCheck s now 2
  else if s.phase = 4 then dispatchCheck s now 3
  else if s.phase = 5 then initiate_warp_drive s
  else s

/-- One iteration of the `while True` loop of `_process_phase` (source lines
788–814).  Order as in the source: resource admission control (`continue`),
stability check and revert (`continue`), then the phase dispatch chain. -/
def tick (e : TickEnv) (s : WarpState) : WarpState :=
  if s.halted then s
  else
    let s0 := applyEnv s e
    if e.overloaded then s0
    else if 10 < e.now - s0.current_phase_start_time ∧ (1 : ℚ)/10 < s0.error_rate then
      revert_phase s0 e.now
    else dispatchPhase s0 e.now

/-- Run the loop for a list of tick environments. -/
def runWarp (s : WarpState) (envs : List TickEnv) : WarpState :=
  envs.foldl (fun st e => tick e st) s

/-- Embeds `get_active_teams` (source lines 850–851). -/
def get_active_teams (s : WarpState) : List Team :=
  s.teams.filter (fun t => t.is_active)

/-- Embeds `_combine_light_speed_results` (source lines 873–876): `np.mean`. -/
def combine_light_speed_results (results : List ℚ) : ℚ :=
  results.sum / results.length

/-- Embeds `_combine_phase_results` (source lines 878–882): `np.average` with the
4-slot weight table truncated to the result count.  `np.average` divides by
the sum of the weights, so the combination IS renormalized. -/
def combine_phase_results (results : List ℚ) : ℚ :=
  let weights := ([1/10, 2/10, 3/10, 4/10] : List ℚ).take results.length
  (List.zipWith (fun w r => w * r) weights results).sum / weights.sum

/-- Embeds `TaskDiversityTracker.update` (source lines 905–908), window 100. -/
def trackerUpdate (hist : List ℚ) (task : ℚ) : List ℚ :=
  let h := hist ++ [task]
  if 100 < h.length then h.tail else h

/-- Embeds `process_with_warp` (source lines 853–871): every active team transforms
the input, the diversity tracker records the raw input, and the outputs are
combined by the light-speed mean or the phase-weighted average.  The
low-diversity check only logs a warning and is not part of the state. -/
def process_with_warp (s : WarpState) (input_data : ℚ) : WarpState × ℚ :=
  let results := (get_active_teams s).map (fun t => t.process input_data)
  let s1 := { s with task_history := trackerUpdate s.task_history input_data }
  let final := if s.is_light_speed then combine_light_speed_results results
               else combine_phase_results results
  (s1, final)

/-! ## Concrete scenario states used by the claims -/

/-- Nonnegativity of all five health metrics — the part of the spec's
`[0,100]` gauge invariant that the code does maintain. -/
def metricsNonneg (m : HealthMetrics) : Prop :=
  0 ≤ m.memory_integrity ∧ 0 ≤ m.emotional_balance ∧ 0 ≤ m.resource_efficiency ∧
  0 ≤ m.decision_quality ∧ 0 ≤ m.communication_reliability

/-- Pointwise order on the five health metrics. -/
def metricsLe (a b : HealthMetrics) : Prop :=
  a.memory_integrity ≤ b.memory_integrity ∧ a.emotional_balance ≤ b.emotional_balance ∧
  a.resource_efficiency ≤ b.resource_efficiency ∧ a.decision_quality ≤ b.decision_quality ∧
  a.communication_reliability ≤ b.communication_reliability

/-- Every severity in the error log is nonnegative. -/
def logSevNonneg (log : List ErrorRecord) : Prop := ∀ e ∈ log, 0 ≤ e.severity

/-- Lookup in an `error_counts` association list: the `(count, total)` of the
first entry keyed by `t`. -/
def findPair (l : List (String × ℕ × ℚ)) (t : String) : Option (ℕ × ℚ) :=
  (l.find? (fun p => decide (p.1 = t))).map (fun p => p.2)

/-- An operation sequence that drives `communication_reliability` above 100:
three unhealed errors of a type that is in no `log_error` category (so no
metric ever decreases) but contains the `communication_failure` strategy key
as a substring, followed by one `heal`. -/
def overshootOps : List HealOp :=
  [.logErr "communication_failure_x" 5 0, .logErr "communication_failure_x" 5 1,
   .logErr "communication_failure_x" 5 2, .heal]

/-- The state after `overshootOps` from a fresh engine. -/
def overshootState : HealState := runOps (freshHealState []) overshootOps

/-- The state after the three `log_error` calls of `overshootOps`, written
out: the log holds the three entries, no metric has moved. -/
def overshootMid : HealState :=
  ⟨[⟨"communication_failure_x", 5, 0, false⟩, ⟨"communication_failure_x", 5, 1, false⟩,
    ⟨"communication_failure_x", 5, 2, false⟩],
   ⟨100, 100, 100, 100, 100⟩, EmotionalState.default, 3/5, 1/10, MemoryBank.default, []⟩

/-- The issue labels a critical health metric can produce in `diagnose`. -/
def criticalIssueTypes : List String :=
  ["critical_memory_integrity", "critical_emotional_balance",
   "critical_resource_efficiency", "critical_decision_quality",
   "critical_communication_reliability"]

/-- A state whose only issue is critical: fresh engine except that
`memory_integrity` was driven to 40. -/
def criticalOnlyState : HealState :=
  { freshHealState [] with
    metrics := { HealthMetrics.initial with memory_integrity := 40 } }

/-- The recurring-error scenario: three `log_error("memory_corruption", 20)`
calls on a fresh engine, at times 0, 1, 2. -/
def recurringScenario (k : ℕ) : HealState :=
  runOps (freshHealState [])
    (([(.logErr "memory_corruption" 20 0 : HealOp), .logErr "memory_corruption" 20 1,
       .logErr "memory_corruption" 20 2]).take k)

/-- A tick with no overload and a healthy error rate, with the given clock
and team efficiencies. -/
def calmTick (now : ℚ) (effs : List ℚ) : TickEnv := ⟨now, false, 0, effs⟩

/-- An environment trace that drives the orchestrator from phase 1 up to
phase 5 (four sustained-efficiency advances), then stalls one tick on
resource overload long enough for the stability window to elapse, then
delivers an error rate above the 0.1 ceiling — which reverts phase 5 to 4
before the terminal action could run. -/
def revertTrace : List TickEnv :=
  [calmTick 3 [9/10, 0, 0, 0, 0], calmTick 6 [9/10, 9/10, 0, 0, 0],
   calmTick 9 [9/10, 9/10, 9/10, 0, 0], calmTick 12 [9/10, 9/10, 9/10, 9/10, 0],
   ⟨23, true, 2/10, [0, 0, 0, 0, 0]⟩, ⟨24, false, 2/10, [0, 0, 0, 0, 0]⟩]

/-- A phase-5 state with all interesting flags clear, used to exercise the
terminal dispatch. -/
def phase5State : WarpState := ⟨5, initialTeams, 0, false, 0, 0, [], false⟩

/-! ## Attribute-dispatch rewriting

Small rewrite lemmas that resolve `getAttr`/`setAttr` at each concrete
attribute name, so that concrete evaluations do not expand the generic
name dispatch. -/

@[simp] theorem getAttr_joy (s : EmotionalState) : getAttr s "joy" = s.joy := by
  simp [getAttr]

@[simp] theorem getAttr_sadness (s : EmotionalState) : getAttr s "sadness" = s.sadness := by
  simp [getAttr]

@[simp] theorem getAttr_fear (s : EmotionalState) : getAttr s "fear" = s.fear := by
  simp [getAttr]

@[simp] theorem getAttr_anger (s : EmotionalState) : getAttr s "anger" = s.anger := by
  simp [getAttr]

@[simp] theorem getAttr_trust (s : EmotionalState) : getAttr s "trust" = s.trust := by
  simp [getAttr]

@[simp] theorem getAttr_disgust (s : EmotionalState) : getAttr s "disgust" = s.disgust := by
  simp [getAttr]

@[simp] theorem getAttr_anticipation (s : EmotionalState) :
    getAttr s "anticipation" = s.anticipation := by
  simp [getAttr]

@[simp] theorem getAttr_surprise (s : EmotionalState) : getAttr s "surprise" = s.surprise := by
  simp [getAttr]

@[simp] theorem getAttr_stability (s : EmotionalState) : getAttr s "stability" = s.stability := by
  simp [getAttr]

@[simp] theorem setAttr_joy (s : EmotionalState) (v : ℚ) :
    setAttr s "joy" v = { s with joy := v } := by
  simp [setAttr]

@[simp] theorem setAttr_sadness (s : EmotionalState) (v : ℚ) :
    setAttr s "sadness" v = { s with sadness := v } := by
  simp [setAttr]

@[simp] theorem setAttr_fear (s : EmotionalState) (v : ℚ) :
    setAttr s "fear" v = { s with fear := v } := by
  simp [setAttr]

@[simp] theorem setAttr_anger (s : EmotionalState) (v : ℚ) :
    setAttr s "anger" v = { s with anger := v } := by
  simp [setAttr]

@[simp] theorem setAttr_trust (s : EmotionalState) (v : ℚ) :
    setAttr s "trust" v = { s with trust := v } := by
  simp [setAttr]

@[simp] theorem setAttr_disgust (s : EmotionalState) (v : ℚ) :
    setAttr s "disgust" v = { s with disgust := v } := by
  simp [setAttr]

@[simp] theorem setAttr_anticipation (s : EmotionalState) (v : ℚ) :
    setAttr s "anticipation" v = { s with anticipation := v } := by
  simp [setAttr]

@[simp] theorem setAttr_surprise (s : EmotionalState) (v : ℚ) :
    setAttr s "surprise" v = { s with surprise := v } := by
  simp [setAttr]

@[simp] theorem setAttr_stability (s : EmotionalState) (v : ℚ) :
    setAttr s "stability" v = { s with stability := v } := by
  simp [setAttr]

/-- Closed form of the decay pass targeting `joy`. -/
theorem decayOthers_joy (d : ℚ) (s : EmotionalState) :
    decayOthers "joy" d s =
      { s with sadness := s.sadness * d, fear := s.fear * d, anger := s.anger * d,
               trust := s.trust * d, disgust := s.disgust * d,
               anticipation := s.anticipation * d, surprise := s.surprise * d } := by
  simp [decayOthers, emotionNames, List.foldl]

/-- Closed form of the decay pass targeting the non-emotion attribute
`stability`: every one of the 8 primary emotions decays. -/
theorem decayOthers_stability (d : ℚ) (s : EmotionalState) :
    decayOthers "stability" d s =
      { s with joy := s.joy * d, sadness := s.sadness * d, fear := s.fear * d,
               anger := s.anger * d, trust := s.trust * d, disgust := s.disgust * d,
               anticipation := s.anticipation * d, surprise := s.surprise * d } := by
  simp [decayOthers, emotionNames, List.foldl]

/-! ## Lemmas about the stable descending sort -/

theorem insertByDesc_ne_nil {α : Type} (f : α → ℚ) (x : α) (l : List α) :
    insertByDesc f x l ≠ [] := by
  cases l with
  | nil => simp [insertByDesc]
  | cons y ys => simp only [insertByDesc]; split <;> simp

theorem mem_insertByDesc {α : Type} (f : α → ℚ) (x a : α) (l : List α) :
    a ∈ insertByDesc f x l ↔ a = x ∨ a ∈ l := by
  induction l with
  | nil => simp [insertByDesc]
  | cons y ys ih =>
      simp only [insertByDesc]
      split
      · simp [List.mem_cons]
      · simp only [List.mem_cons, ih]
        tauto

theorem mem_sortByDesc {α : Type} (f : α → ℚ) (a : α) (l : List α) :
    a ∈ sortByDesc f l ↔ a ∈ l := by
  induction l with
  | nil => simp [sortByDesc]
  | cons x xs ih => simp [sortByDesc, mem_insertByDesc, ih]

theorem pairwise_insertByDesc {α : Type} (f : α → ℚ) (x : α) {l : List α}
    (h : List.Pairwise (fun a b => f b ≤ f a) l) :
    List.Pairwise (fun a b => f b ≤ f a) (insertByDesc f x l) := by
  induction l with
  | nil => simp [insertByDesc]
  | cons y ys ih =>
      rw [List.pairwise_cons] at h
      obtain ⟨hy, hys⟩ := h
      simp only [insertByDesc]
      split
      · rename_i hle
        rw [List.pairwise_cons]
        refine ⟨?_, ?_⟩
        · intro b hb
          rcases List.mem_cons.mp hb with rfl | hb
          · exact hle
          · exact le_trans (hy b hb) hle
        · rw [List.pairwise_cons]
          exact ⟨hy, hys⟩
      · rename_i hnle
        rw [List.pairwise_cons]
        refine ⟨?_, ih hys⟩
        intro b hb
        rcases (mem_insertByDesc f x b ys).mp hb with rfl | hb
        · exact le_of_lt (not_le.mp hnle)
        · exact hy b hb

theorem pairwise_sortByDesc {α : Type} (f : α → ℚ) (l : List α) :
    List.Pairwise (fun a b => f b ≤ f a) (sortByDesc f l) := by
  induction l with
  | nil => simp [sortByDesc]
  | cons x xs ih => exact pairwise_insertByDesc f x ih

theorem filter_insertByDesc {α : Type} (f : α → ℚ) (x : α) (l : List α) (v : ℚ) :
    (insertByDesc f x l).filter (fun a => decide (f a = v)) =
      if f x = v then x :: l.filter (fun a => decide (f a = v))
      else l.filter (fun a => decide (f a = v)) := by
  induction l with
  | nil =>
      by_cases hx : f x = v
      · simp [insertByDesc, hx]
      · simp [insertByDesc, hx]
  | cons y ys ih =>
      simp only [insertByDesc]
      split
      · by_cases hx : f x = v <;> simp [List.filter_cons, hx]
      · rename_i hnle
        have hxy : f x < f y := not_le.mp hnle
        rw [List.filter_cons, ih, List.filter_cons]
        by_cases hy : f y = v
        · have hx : f x ≠ v := by
            intro h
            rw [h, hy] at hxy
            exact lt_irrefl v hxy
          simp [hy, hx]
        · by_cases hx : f x = v
          · simp [hy, hx]
          · simp [hy, hx]

theorem filter_sortByDesc {α : Type} (f : α → ℚ) (l : List α) (v : ℚ) :
    (sortByDesc f l).filter (fun a => decide (f a = v)) =
      l.filter (fun a => decide (f a = v)) := by
  induction l with
  | nil => rfl
  | cons x xs ih =>
      simp only [sortByDesc]
      rw [filter_insertByDesc, ih, List.filter_cons]
      by_cases hx : f x = v <;> simp [hx]

theorem sortByDesc_eq_nil_iff {α : Type} (f : α → ℚ) (l : List α) :
    sortByDesc f l = [] ↔ l = [] := by
  cases l with
  | nil => simp [sortByDesc]
  | cons x xs =>
      simp only [sortByDesc]
      constructor
      · intro h; exact absurd h (insertByDesc_ne_nil f x _)
      · intro h; cases h

/-! ## Lemmas about the error-counts dictionary

The `error_counts` dict of `diagnose` is characterised against the
specification-level `countUnhealed` / `totalSeverity`. -/

theorem findPair_bumpCount_self (t : String) (s : ℚ) (acc : List (String × ℕ × ℚ)) :
    findPair (bumpCount t s acc) t =
      some (((findPair acc t).getD (0, 0)).1 + 1, ((findPair acc t).getD (0, 0)).2 + s) := by
  induction acc with
  | nil => simp [bumpCount, findPair, List.find?]
  | cons p rest ih =>
      obtain ⟨u, c, tot⟩ := p
      simp only [bumpCount]
      by_cases h : u = t
      · subst h
        simp [findPair, List.find?]
      · rw [if_neg h]
        have hskip : ∀ l : List (String × ℕ × ℚ),
            findPair ((u, c, tot) :: l) t = findPair l t := by
          intro l
          simp [findPair, List.find?, h]
        rw [hskip, hskip, ih]

theorem findPair_bumpCount_other (t u : String) (hu : u ≠ t) (s : ℚ)
    (acc : List (String × ℕ × ℚ)) :
    findPair (bumpCount t s acc) u = findPair acc u := by
  induction acc with
  | nil =>
      have hne : ¬ t = u := fun h2 => hu h2.symm
      simp [bumpCount, findPair, List.find?, hne]
  | cons p rest ih =>
      obtain ⟨w, c, tot⟩ := p
      simp only [bumpCount]
      by_cases h : w = t
      · subst h
        have hw : ¬ w = u := fun h2 => hu (h2.symm)
        simp [findPair, List.find?, hw]
      · rw [if_neg h]
        by_cases hw : w = u
        · subst hw
          simp [findPair, List.find?]
        · simp only [findPair, List.find?] at ih ⊢
          simp [hw, ih]

theorem keys_bumpCount (t : String) (s : ℚ) (acc : List (String × ℕ × ℚ)) :
    (bumpCount t s acc).map Prod.fst =
      if t ∈ acc.map Prod.fst then acc.map Prod.fst else acc.map Prod.fst ++ [t] := by
  induction acc with
  | nil => simp [bumpCount]
  | cons p rest ih =>
      obtain ⟨u, c, tot⟩ := p
      simp only [bumpCount]
      by_cases h : u = t
      · subst h
        simp
      · rw [if_neg h]
        have : ¬ t = u := fun h2 => h h2.symm
        simp only [List.map_cons, List.mem_cons, this, false_or, ih]
        split <;> simp

theorem nodup_keys_bumpCount (t : String) (s : ℚ) {acc : List (String × ℕ × ℚ)}
    (h : (acc.map Prod.fst).Nodup) : ((bumpCount t s acc).map Prod.fst).Nodup := by
  rw [keys_bumpCount]
  split
  · exact h
  · rename_i hn
    rw [List.nodup_append]
    exact ⟨h, List.nodup_singleton t, by
      intro a ha
      simp only [List.mem_singleton]
      intro hat
      exact hn (hat ▸ ha)⟩

theorem countUnhealed_nil (t : String) : countUnhealed [] t = 0 := rfl

theorem totalSeverity_of_countUnhealed_eq_zero (log : List ErrorRecord) (t : String)
    (h : countUnhealed log t = 0) : totalSeverity log t = 0 := by
  unfold countUnhealed at h
  unfold totalSeverity
  rw [List.length_eq_zero] at h
  rw [h]
  rfl

theorem countUnhealed_snoc (log : List ErrorRecord) (e : ErrorRecord) (t : String) :
    countUnhealed (log ++ [e]) t =
      countUnhealed log t + (if e.healed = false ∧ e.type = t then 1 else 0) := by
  unfold countUnhealed
  rw [List.filter_append, List.length_append]
  congr 1
  by_cases h1 : e.healed
  · simp [List.filter, h1]
  · by_cases h2 : e.type = t
    · simp [List.filter, h1, h2]
    · simp [List.filter, h1, h2]

theorem totalSeverity_snoc (log : List ErrorRecord) (e : ErrorRecord) (t : String) :
    totalSeverity (log ++ [e]) t =
      totalSeverity log t + (if e.healed = false ∧ e.type = t then e.severity else 0) := by
  unfold totalSeverity
  rw [List.filter_append, List.map_append, List.sum_append]
  congr 1
  by_cases h1 : e.healed
  · simp [List.filter, h1]
  · by_cases h2 : e.type = t
    · simp [List.filter, h1, h2]
    · simp [List.filter, h1, h2]

/-- The characterising invariant of the partially built `error_counts` dict:
lookups agree with `countUnhealed` / `totalSeverity` over the processed
prefix, and the keys are duplicate-free. -/
def countsGood (processed : List ErrorRecord) (acc : List (String × ℕ × ℚ)) : Prop :=
  (∀ t, findPair acc t =
      if countUnhealed processed t = 0 then none
      else some (countUnhealed processed t, totalSeverity processed t)) ∧
  (acc.map Prod.fst).Nodup

theorem countsGood_step (processed : List ErrorRecord) (acc : List (String × ℕ × ℚ))
    (e : ErrorRecord) (h : countsGood processed acc) :
    countsGood (processed ++ [e])
      (if e.healed then acc else bumpCount e.type e.severity acc) := by
  obtain ⟨hfind, hnd⟩ := h
  by_cases hh : e.healed
  · rw [if_pos hh]
    refine ⟨?_, hnd⟩
    intro t
    rw [countUnhealed_snoc, totalSeverity_snoc]
    simp [hh, hfind t]
  · rw [if_neg hh]
    refine ⟨?_, nodup_keys_bumpCount _ _ hnd⟩
    intro t
    rw [countUnhealed_snoc, totalSeverity_snoc]
    have hhf : e.healed = false := by simpa using hh
    by_cases ht : e.type = t
    · subst ht
      rw [findPair_bumpCount_self, hfind e.type]
      by_cases hz : countUnhealed processed e.type = 0
      · simp [hhf, hz, totalSeverity_of_countUnhealed_eq_zero processed e.type hz]
      · simp [hhf, hz]
    · rw [findPair_bumpCount_other e.type t (fun h2 => ht h2.symm), hfind t]
      simp [ht]

theorem countsGood_fold (rest : List ErrorRecord) :
    ∀ (processed : List ErrorRecord) (acc : List (String × ℕ × ℚ)),
      countsGood processed acc →
      countsGood (processed ++ rest)
        (rest.foldl (fun a e => if e.healed then a else bumpCount e.type e.severity a) acc) := by
  induction rest with
  | nil =>
      intro processed acc h
      simpa using h
  | cons e rest ih =>
      intro processed acc h
      have h2 := countsGood_step processed acc e h
      have h3 := ih (processed ++ [e]) _ h2
      simpa [List.append_assoc] using h3

theorem errorCounts_spec (log : List ErrorRecord) : countsGood log (errorCounts log) := by
  have h0 : countsGood [] ([] : List (String × ℕ × ℚ)) := by
    refine ⟨?_, by simp⟩
    intro t
    simp [findPair, countUnhealed]
  have h1 := countsGood_fold log [] [] h0
  simpa [errorCounts] using h1

theorem find?_eq_of_mem_nodupKeys {l : List (String × ℕ × ℚ)}
    (hnd : (l.map Prod.fst).Nodup) {p : String × ℕ × ℚ} (hp : p ∈ l) :
    l.find? (fun q => decide (q.1 = p.1)) = some p := by
  induction l with
  | nil => cases hp
  | cons q rest ih =>
      rw [List.map_cons, List.nodup_cons] at hnd
      obtain ⟨hq, hrest⟩ := hnd
      rcases List.mem_cons.mp hp with rfl | hp2
      · simp [List.find?]
      · have hne : ¬ q.1 = p.1 := by
          intro h2
          exact hq (h2 ▸ List.mem_map_of_mem Prod.fst hp2)
        rw [List.find?_cons_of_neg _ (by simp [hne])]
        exact ih hrest hp2

theorem errorCounts_entry_eq (log : List ErrorRecord) {p : String × ℕ × ℚ}
    (hp : p ∈ errorCounts log) :
    p.2.1 = countUnhealed log p.1 ∧ p.2.2 = totalSeverity log p.1 := by
  obtain ⟨hfind, hnd⟩ := errorCounts_spec log
  have h1 : findPair (errorCounts log) p.1 = some p.2 := by
    unfold findPair
    rw [find?_eq_of_mem_nodupKeys hnd hp]
    rfl
  rw [hfind p.1] at h1
  by_cases hz : countUnhealed log p.1 = 0
  · rw [if_pos hz] at h1
    cases h1
  · rw [if_neg hz] at h1
    have h2 := Option.some.inj h1
    constructor
    · rw [← h2]
    · rw [← h2]

theorem mem_errorCounts (log : List ErrorRecord) (t : String)
    (h : countUnhealed log t ≠ 0) :
    (t, countUnhealed log t, totalSeverity log t) ∈ errorCounts log := by
  obtain ⟨hfind, hnd⟩ := errorCounts_spec log
  have h1 := hfind t
  rw [if_neg h] at h1
  unfold findPair at h1
  cases hf : (errorCounts log).find? (fun p => decide (p.1 = t)) with
  | none =>
      rw [hf] at h1
      cases h1
  | some p =>
      rw [hf] at h1
      have hp1 : p.1 = t := by
        have h2 := List.find?_some hf
        simpa using h2
      have hmem := List.mem_of_find?_eq_some hf
      have hp2 : p.2 = (countUnhealed log t, totalSeverity log t) := by
        simpa using h1
      have hpe : p = (t, countUnhealed log t, totalSeverity log t) := by
        obtain ⟨a, b⟩ := p
        simp only [Prod.mk.injEq]
        exact ⟨hp1, by simpa using hp2⟩
      rwa [hpe] at hmem

/-! ## Lemmas for the health-metric invariant -/

theorem metricsNonneg_of_le {a b : HealthMetrics} (h1 : metricsNonneg a)
    (h2 : metricsLe a b) : metricsNonneg b :=
  ⟨le_trans h1.1 h2.1, le_trans h1.2.1 h2.2.1, le_trans h1.2.2.1 h2.2.2.1,
   le_trans h1.2.2.2.1 h2.2.2.2.1, le_trans h1.2.2.2.2 h2.2.2.2.2⟩

/-- Every recovery strategy leaves the error log untouched. -/
theorem runStrategy_log (key : String) (sev : ℚ) (s : HealState) :
    (runStrategy key sev s).1.log = s.log := by
  unfold runStrategy heal_memory_corruption heal_emotional_instability
    heal_resource_depletion heal_decision_paralysis heal_communication_failure
  split_ifs <;> rfl

/-- Every recovery strategy only raises health metrics (for a nonnegative
issue severity): each adds `min cap (k * severity)` with positive cap to one
metric and leaves the rest unchanged. -/
theorem runStrategy_metricsLe (key : String) (sev : ℚ) (s : HealState)
    (hsev : 0 ≤ sev) : metricsLe s.metrics (runStrategy key sev s).1.metrics := by
  have h3 : (0 : ℚ) ≤ sev * 3 := mul_nonneg hsev (by norm_num)
  have h2 : (0 : ℚ) ≤ sev * 2 := mul_nonneg hsev (by norm_num)
  have h25 : (0 : ℚ) ≤ sev * (25/10) := mul_nonneg hsev (by norm_num)
  have h15 : (0 : ℚ) ≤ sev * (15/10) := mul_nonneg hsev (by norm_num)
  unfold runStrategy heal_memory_corruption heal_emotional_instability
    heal_resource_depletion heal_decision_paralysis heal_communication_failure
    metricsLe
  split_ifs <;>
    refine ⟨?_, ?_, ?_, ?_, ?_⟩ <;>
      first
        | exact le_refl _
        | exact le_add_of_nonneg_right (le_min (by norm_num) h3)
        | exact le_add_of_nonneg_right (le_min (by norm_num) h2)
        | exact le_add_of_nonneg_right (le_min (by norm_num) h25)
        | exact le_add_of_nonneg_right (le_min (by norm_num) h15)
        | exact le_add_of_nonneg_right (le_min (by norm_num) hsev)

theorem totalSeverity_nonneg (log : List ErrorRecord) (t : String)
    (hlog : logSevNonneg log) : 0 ≤ totalSeverity log t := by
  unfold totalSeverity
  apply List.sum_nonneg
  intro x hx
  rcases List.mem_map.mp hx with ⟨e, he, rfl⟩
  exact hlog e (List.mem_of_mem_filter he)

/-- Every issue `diagnose` can produce has nonnegative severity, as long as
all logged severities are nonnegative. -/
theorem diagnose_sev_nonneg (log : List ErrorRecord) (m : HealthMetrics)
    (hlog : logSevNonneg log) : ∀ i ∈ diagnose log m, 0 ≤ i.severity := by
  intro i hi
  rw [diagnose, mem_sortByDesc] at hi
  rcases List.mem_append.mp hi with hc | hr
  · rcases List.mem_filterMap.mp hc with ⟨p, _, hfp⟩
    by_cases hlt : p.2 < 50
    · rw [if_pos hlt] at hfp
      cases hfp
      exact mul_nonneg (div_nonneg (by linarith) (by norm_num)) (by norm_num)
    · rw [if_neg hlt] at hfp
      cases hfp
  · rcases List.mem_filterMap.mp hr with ⟨p, hp, hfp⟩
    by_cases hge : 3 ≤ p.2.1
    · rw [if_pos hge] at hfp
      cases hfp
      have he := errorCounts_entry_eq log hp
      rw [he.2]
      exact div_nonneg (totalSeverity_nonneg log p.1 hlog) (by positivity)
    · rw [if_neg hge] at hfp
      cases hfp

theorem healStep_log (acc : HealState × List HealAction) (issue : Issue) :
    (healStep acc issue).1.log = acc.1.log := by
  unfold healStep
  cases hf : List.find? (fun k => substrOf k (stripIssueType issue.type))
      recoveryStrategyKeys with
  | none => simp [hf]
  | some key => simp [hf, runStrategy_log]

theorem healStep_metricsNonneg (acc : HealState × List HealAction) (issue : Issue)
    (h : metricsNonneg acc.1.metrics) (hsev : 0 ≤ issue.severity) :
    metricsNonneg (healStep acc issue).1.metrics := by
  unfold healStep
  cases hf : List.find? (fun k => substrOf k (stripIssueType issue.type))
      recoveryStrategyKeys with
  | none => simpa [hf] using h
  | some key =>
      simp only [hf]
      exact metricsNonneg_of_le h (runStrategy_metricsLe _ _ _ hsev)

theorem healFold_preserves (issues : List Issue)
    (hsev : ∀ i ∈ issues, 0 ≤ i.severity) :
    ∀ acc : HealState × List HealAction, metricsNonneg acc.1.metrics →
      metricsNonneg ((issues.foldl healStep acc).1.metrics) ∧
      (issues.foldl healStep acc).1.log = acc.1.log := by
  induction issues with
  | nil =>
      intro acc h
      exact ⟨h, rfl⟩
  | cons i rest ih =>
      intro acc h
      have hi : 0 ≤ i.severity := hsev i (List.mem_cons_self i rest)
      have hrest : ∀ j ∈ rest, 0 ≤ j.severity :=
        fun j hj => hsev j (List.mem_cons_of_mem i hj)
      have h1 := healStep_metricsNonneg acc i h hi
      have h2 := ih hrest (healStep acc i) h1
      rw [List.foldl_cons]
      exact ⟨h2.1, h2.2.trans (healStep_log acc i)⟩

/-- A `heal` call preserves metric nonnegativity and log-severity
nonnegativity: the marking pass only flips `healed` flags, and the strategy
runs only add nonnegative amounts. -/
theorem heal_preserves (s : HealState) (h1 : metricsNonneg s.metrics)
    (h2 : logSevNonneg s.log) :
    metricsNonneg (heal s).1.metrics ∧ logSevNonneg (heal s).1.log := by
  by_cases he : (diagnose s.log s.metrics).isEmpty
  · simp only [heal, he, if_true]
    exact ⟨h1, h2⟩
  · simp only [heal, he, Bool.false_eq_true, if_false]
    have hsev : ∀ i ∈ (diagnose s.log s.metrics).take 3, 0 ≤ i.severity :=
      fun i hi => diagnose_sev_nonneg s.log s.metrics h2 i (List.take_subset 3 _ hi)
    have hf := healFold_preserves _ hsev (s, []) h1
    refine ⟨hf.1, ?_⟩
    intro e2 he2
    rcases List.mem_map.mp he2 with ⟨e, he, rfl⟩
    rw [hf.2] at he
    split_ifs <;> exact h2 e he

/-- One engine operation preserves the invariant. -/
theorem stepOp_preserves (s : HealState) (op : HealOp) (hop : opSevNonneg op)
    (h1 : metricsNonneg s.metrics) (h2 : logSevNonneg s.log) :
    metricsNonneg (stepOp s op).metrics ∧ logSevNonneg (stepOp s op).log := by
  cases op with
  | heal => exact heal_preserves s h1 h2
  | logErr t sev now =>
      refine ⟨?_, ?_⟩
      · unfold stepOp log_error logErrorMetrics
        simp only
        split_ifs <;>
          first
            | exact h1
            | exact ⟨le_max_left 0 _, h1.2.1, h1.2.2.1, h1.2.2.2.1, h1.2.2.2.2⟩
            | exact ⟨h1.1, le_max_left 0 _, h1.2.2.1, h1.2.2.2.1, h1.2.2.2.2⟩
            | exact ⟨h1.1, h1.2.1, le_max_left 0 _, h1.2.2.2.1, h1.2.2.2.2⟩
            | exact ⟨h1.1, h1.2.1, h1.2.2.1, le_max_left 0 _, h1.2.2.2.2⟩
            | exact ⟨h1.1, h1.2.1, h1.2.2.1, h1.2.2.2.1, le_max_left 0 _⟩
      · intro e he
        unfold stepOp log_error pushBounded at he
        simp only at he
        have he2 := List.drop_subset _ _ he
        rcases List.mem_append.mp he2 with hold | hnew
        · exact h2 e hold
        · rcases List.mem_singleton.mp hnew with rfl
          exact hop

/-- Running any operation sequence with nonnegative severities preserves the
invariant. -/
theorem runOps_preserves (ops : List HealOp) :
    ∀ s : HealState, (∀ op ∈ ops, opSevNonneg op) →
      metricsNonneg s.metrics → logSevNonneg s.log →
      metricsNonneg (runOps s ops).metrics ∧ logSevNonneg (runOps s ops).log := by
  induction ops with
  | nil =>
      intro s _ h1 h2
      exact ⟨h1, h2⟩
  | cons op rest ih =>
      intro s hops h1 h2
      have hop := hops op (List.mem_cons_self op rest)
      have h3 := stepOp_preserves s op hop h1 h2
      have h4 := ih (stepOp s op) (fun o ho => hops o (List.mem_cons_of_mem op ho)) h3.1 h3.2
      exact h4

/-- Logging an error with nonnegative severity never raises any metric. -/
theorem log_error_metricsLe (t : String) (sev now : ℚ) (log : List ErrorRecord)
    (m : HealthMetrics) (hsev : 0 ≤ sev) (hm : metricsNonneg m) :
    metricsLe (log_error t sev now log m).2 m := by
  show metricsLe (logErrorMetrics t sev m) m
  unfold logErrorMetrics
  split_ifs
  · exact ⟨max_le hm.1 (by linarith), le_refl _, le_refl _, le_refl _, le_refl _⟩
  · exact ⟨le_refl _, max_le hm.2.1 (by linarith), le_refl _, le_refl _, le_refl _⟩
  · exact ⟨le_refl _, le_refl _, max_le hm.2.2.1 (by linarith), le_refl _, le_refl _⟩
  · exact ⟨le_refl _, le_refl _, le_refl _, max_le hm.2.2.2.1 (by linarith), le_refl _⟩
  · exact ⟨le_refl _, le_refl _, le_refl _, le_refl _, max_le hm.2.2.2.2 (by linarith)⟩
  · exact ⟨le_refl _, le_refl _, le_refl _, le_refl _, le_refl _⟩

/-! ## The claims -/

/-- C8: starting from the default emotional state (all 8 intensities 50),
`update_emotion("joy", 20, decay_factor=0.9)` yields joy = 70, every other
intensity = 45.0, and stability = (70 + 45 - 45 - 45) / 2 = 12.5 (= 25/2);
the remaining derived metrics are adaptability = 22.5 and
social_alignment = 0. -/
theorem C8_emotional_update_scenario :
    update_emotion EmotionalState.default "joy" 20 (9/10) =
      .ok ⟨70, 45, 45, 45, 45, 45, 45, 45, 25/2, 45/2, 0⟩ := by
  unfold update_emotion
  rw [if_pos (by decide : "joy" ∈ emotionNames ∨ "joy" ∈ derivedNames ∨ "joy" ∈ methodNames),
      if_neg (by decide : ¬ "joy" ∈ methodNames)]
  norm_num [EmotionalState.default, update_derived_metrics, decayOthers_joy, clamp100]

/-- C2: the claim that every non-emotion name is rejected with an
invalid-argument error before any mutation is false on the code: the guard
is `hasattr`, so the derived-metric name "stability" — not one of the 8
emotions — is accepted, and the call mutates the state (all 8 intensities
decay to 45 and the derived metrics are recomputed) instead of raising
`ValueError`. -/
theorem C2_unknown_name_not_rejected :
    "stability" ∉ emotionNames ∧
    update_emotion EmotionalState.default "stability" 5 (9/10) =
      .ok ⟨45, 45, 45, 45, 45, 45, 45, 45, 0, 45/2, 0⟩ := by
  constructor
  · decide
  · unfold update_emotion
    rw [if_pos (by decide :
          "stability" ∈ emotionNames ∨ "stability" ∈ derivedNames ∨ "stability" ∈ methodNames),
        if_neg (by decide : ¬ "stability" ∈ methodNames)]
    norm_num [EmotionalState.default, update_derived_metrics, decayOthers_stability, clamp100]

/-- C3 counterexample: with two active teams producing outputs 3 and 0, the
non-light-speed combine returns 1 — `np.average` divides by the weight sum
0.3 — and not the unrenormalized value 0.1·3 + 0.2·0 = 0.3 the claim
asserts. -/
theorem C3_counterexample :
    combine_phase_results [3, 0] = 1 ∧
    combine_phase_results [3, 0] ≠ (1/10) * 3 + (2/10) * 0 := by
  norm_num [combine_phase_results]

/-- C3 amended: with 2 active teams producing outputs `a` and `b` and the
light-speed flag inactive, the combine is the weight-table average
RENORMALIZED by the weight sum: (0.1·a + 0.2·b) / 0.3; and
`process_with_warp` applies exactly this combination when light speed is
inactive. -/
theorem C3_amended_renormalized_combine :
    (∀ a b : ℚ, combine_phase_results [a, b] = ((1/10) * a + (2/10) * b) / (3/10)) ∧
    (∀ (s : WarpState) (x : ℚ), s.is_light_speed = false →
      (process_with_warp s x).2 =
        combine_phase_results ((get_active_teams s).map (fun t => t.process x))) := by
  constructor
  · intro a b
    norm_num [combine_phase_results]
  · intro s x hl
    simp [process_with_warp, hl]

/-- Logging an error of the unrecognized type `communication_failure_x`
changes no metric: the type is in none of the five category rows. -/
theorem logErrorMetrics_cfx (sev : ℚ) (m : HealthMetrics) :
    logErrorMetrics "communication_failure_x" sev m = m := by
  simp [logErrorMetrics]

/-- Strategy dispatch at the key `communication_failure`. -/
theorem runStrategy_cf (sev : ℚ) (s : HealState) :
    runStrategy "communication_failure" sev s = heal_communication_failure sev s := by
  simp [runStrategy]

/-- The three `log_error` calls of `overshootOps` produce `overshootMid`. -/
theorem overshoot_pre : runOps (freshHealState []) (overshootOps.take 3) = overshootMid := by
  norm_num [runOps, stepOp, overshootOps, log_error, pushBounded, freshHealState,
    logErrorMetrics_cfx, HealthMetrics.initial, overshootMid, List.foldl, List.take]

/-- Diagnosis of `overshootMid`: one recurring issue, no critical issue. -/
theorem overshoot_diag :
    diagnose overshootMid.log overshootMid.metrics =
      [⟨"recurring_communication_failure_x", 5, some 3,
        "Recurring communication failure x detected"⟩] := by
  norm_num [diagnose, rawIssues, criticalIssues, metricsList, recurringIssues, errorCounts,
    bumpCount, sortByDesc, insertByDesc, List.foldl, overshootMid,
    (by decide : "recurring_" ++ "communication_failure_x" = "recurring_communication_failure_x"),
    (by decide : "Recurring " ++ replaceUnderscore "communication_failure_x" ++ " detected" =
      "Recurring communication failure x detected")]

/-- The one issue of `overshootMid` is handled by the `communication_failure`
strategy, which raises `communication_reliability` from 100 to 112.5. -/
theorem overshoot_healStep :
    healStep (overshootMid, [])
      ⟨"recurring_communication_failure_x", 5, some 3,
        "Recurring communication failure x detected"⟩ =
      ({ overshootMid with
          metrics := { overshootMid.metrics with communication_reliability := 225/2 } },
       [⟨"recurring_communication_failure_x", "communication_failure",
         "Communication protocols reset and reinitialized"⟩]) := by
  simp only [healStep,
    (by decide : stripIssueType "recurring_communication_failure_x" = "communication_failure_x"),
    (by decide : List.find? (fun k => substrOf k "communication_failure_x")
        recoveryStrategyKeys = some "communication_failure"),
    runStrategy_cf, heal_communication_failure]
  norm_num [overshootMid]

/-- Healing `overshootMid` overshoots `communication_reliability` to 112.5. -/
theorem overshoot_heal :
    (heal overshootMid).1.metrics.communication_reliability = 225/2 := by
  simp only [heal, overshoot_diag]
  simp only [List.isEmpty_cons, List.take, List.foldl, overshoot_healStep]
  norm_num [overshootMid]

/-- C1 counterexample: under the sequence `overshootOps` — three logged
errors of nonnegative severity followed by one `heal` — the health metric
`communication_reliability` reaches 112.5, violating the claimed `[0,100]`
clamp: `heal`'s strategies add their gain without any upper clamp. -/
theorem C1_counterexample :
    (∀ op ∈ overshootOps, opSevNonneg op) ∧
    overshootState.metrics.communication_reliability = 225/2 ∧
    ¬ overshootState.metrics.communication_reliability ≤ 100 := by
  have hval : overshootState.metrics.communication_reliability = 225/2 := by
    have hsplit : overshootState =
        stepOp (runOps (freshHealState []) (overshootOps.take 3)) .heal := rfl
    rw [hsplit, overshoot_pre]
    show (heal overshootMid).1.metrics.communication_reliability = 225/2
    exact overshoot_heal
  refine ⟨?_, hval, ?_⟩
  · intro op hop
    fin_cases hop <;> norm_num [opSevNonneg]
  · rw [hval]
    norm_num


/-- C7: three `log_error("memory_corruption", 20)` calls drive
`memory_integrity` 100 → 80 → 60 → 40, and `diagnose` then returns exactly
two issues, ordered [recurring(severity 20, count 3), critical(severity 2)]. -/
theorem C7_recurring_error_scenario :
    (recurringScenario 1).metrics.memory_integrity = 80 ∧
    (recurringScenario 2).metrics.memory_integrity = 60 ∧
    (recurringScenario 3).metrics.memory_integrity = 40 ∧
    diagnose (recurringScenario 3).log (recurringScenario 3).metrics =
      [⟨"recurring_memory_corruption", 20, some 3, "Recurring memory corruption detected"⟩,
       ⟨"critical_memory_integrity", 2, none, "Critical memory integrity issue detected"⟩] := by
  have hlog : (recurringScenario 3).log =
      [⟨"memory_corruption", 20, 0, false⟩, ⟨"memory_corruption", 20, 1, false⟩,
       ⟨"memory_corruption", 20, 2, false⟩] := by
    norm_num [recurringScenario, runOps, stepOp, log_error, pushBounded, freshHealState,
      logErrorMetrics, List.foldl, List.take]
  have hmet : (recurringScenario 3).metrics = ⟨40, 100, 100, 100, 100⟩ := by
    norm_num [recurringScenario, runOps, stepOp, log_error, pushBounded, freshHealState,
      HealthMetrics.initial, logErrorMetrics, List.foldl, List.take]
  refine ⟨?_, ?_, ?_, ?_⟩
  · norm_num [recurringScenario, runOps, stepOp, log_error, pushBounded, freshHealState,
      HealthMetrics.initial, logErrorMetrics, List.foldl, List.take]
  · norm_num [recurringScenario, runOps, stepOp, log_error, pushBounded, freshHealState,
      HealthMetrics.initial, logErrorMetrics, List.foldl, List.take]
  · rw [hmet]
  · rw [hlog, hmet]
    norm_num [diagnose, rawIssues, criticalIssues, metricsList, recurringIssues, errorCounts,
      bumpCount, sortByDesc, insertByDesc, List.foldl,
      (by decide : "critical_" ++ "memory_integrity" = "critical_memory_integrity"),
      (by decide : "recurring_" ++ "memory_corruption" = "recurring_memory_corruption"),
      (by decide : "Critical " ++ replaceUnderscore "memory_integrity" ++ " issue detected" =
        "Critical memory integrity issue detected"),
      (by decide : "Recurring " ++ replaceUnderscore "memory_corruption" ++ " detected" =
        "Recurring memory corruption detected")]

/-- C4: every error type with at least 3 unhealed log entries yields a
recurring issue in `diagnose` whose severity is the mean severity of that
type's unhealed entries, and which carries the occurrence count. -/
theorem C4_recurring_issue_mean_severity (log : List ErrorRecord) (m : HealthMetrics)
    (t : String) (h : 3 ≤ countUnhealed log t) :
    ∃ i ∈ diagnose log m, i.type = "recurring_" ++ t ∧
      i.severity = totalSeverity log t / countUnhealed log t ∧
      i.count = some (countUnhealed log t) := by
  have hne : countUnhealed log t ≠ 0 := by omega
  have hmem := mem_errorCounts log t hne
  refine ⟨⟨"recurring_" ++ t, totalSeverity log t / countUnhealed log t,
          some (countUnhealed log t), "Recurring " ++ replaceUnderscore t ++ " detected"⟩,
          ?_, rfl, rfl, rfl⟩
  rw [diagnose, mem_sortByDesc, rawIssues]
  refine List.mem_append.mpr (Or.inr ?_)
  rw [recurringIssues]
  refine List.mem_filterMap.mpr ⟨(t, countUnhealed log t, totalSeverity log t), hmem, ?_⟩
  rw [if_pos h]

/-- Witness for C4 on a concrete three-entry log. -/
theorem C4_witness :
    3 ≤ countUnhealed
        [(⟨"memory_corruption", 20, 0, false⟩ : ErrorRecord),
         ⟨"memory_corruption", 20, 1, false⟩, ⟨"memory_corruption", 20, 2, false⟩]
        "memory_corruption" ∧
    ∃ i ∈ diagnose
        [(⟨"memory_corruption", 20, 0, false⟩ : ErrorRecord),
         ⟨"memory_corruption", 20, 1, false⟩, ⟨"memory_corruption", 20, 2, false⟩]
        HealthMetrics.initial,
      i.type = "recurring_" ++ "memory_corruption" ∧
      i.severity =
        totalSeverity
          [(⟨"memory_corruption", 20, 0, false⟩ : ErrorRecord),
           ⟨"memory_corruption", 20, 1, false⟩, ⟨"memory_corruption", 20, 2, false⟩]
          "memory_corruption" /
        countUnhealed
          [(⟨"memory_corruption", 20, 0, false⟩ : ErrorRecord),
           ⟨"memory_corruption", 20, 1, false⟩, ⟨"memory_corruption", 20, 2, false⟩]
          "memory_corruption" ∧
      i.count = some (countUnhealed
          [(⟨"memory_corruption", 20, 0, false⟩ : ErrorRecord),
           ⟨"memory_corruption", 20, 1, false⟩, ⟨"memory_corruption", 20, 2, false⟩]
          "memory_corruption") := by
  have h : 3 ≤ countUnhealed
      [(⟨"memory_corruption", 20, 0, false⟩ : ErrorRecord),
       ⟨"memory_corruption", 20, 1, false⟩, ⟨"memory_corruption", 20, 2, false⟩]
      "memory_corruption" := by
    norm_num [countUnhealed, List.filter]
  exact ⟨h, C4_recurring_issue_mean_severity _ HealthMetrics.initial _ h⟩

/-- A conditional `some` equals `none` only when the condition fails. -/
theorem not_of_ite_some_eq_none {α : Type} {c : Prop} [Decidable c] {x : α}
    (h : (if c then some x else none) = none) : ¬ c := by
  intro hc
  rw [if_pos hc] at h
  cases h

/-- C6: `diagnose` output is sorted by severity descending, ties are kept
stably in discovery order (for every severity value the issues with that
severity appear exactly as in the unsorted issue list), and the output is
empty iff every health metric is at least 50 and no error type has 3 or
more unhealed entries. -/
theorem C6_diagnose_sorted_and_empty_iff (log : List ErrorRecord) (m : HealthMetrics) :
    List.Pairwise (fun a b => b.severity ≤ a.severity) (diagnose log m) ∧
    (∀ v : ℚ, (diagnose log m).filter (fun i => decide (i.severity = v)) =
        (rawIssues log m).filter (fun i => decide (i.severity = v))) ∧
    (diagnose log m = [] ↔
      ((50 ≤ m.memory_integrity ∧ 50 ≤ m.emotional_balance ∧
        50 ≤ m.resource_efficiency ∧ 50 ≤ m.decision_quality ∧
        50 ≤ m.communication_reliability) ∧
       ∀ t : String, countUnhealed log t < 3)) := by
  refine ⟨pairwise_sortByDesc _ _, fun v => filter_sortByDesc _ _ v, ?_⟩
  rw [diagnose, sortByDesc_eq_nil_iff, rawIssues, List.append_eq_nil]
  constructor
  · rintro ⟨hc, hr⟩
    rw [criticalIssues, List.filterMap_eq_nil_iff] at hc
    rw [recurringIssues, List.filterMap_eq_nil_iff] at hr
    refine ⟨⟨?_, ?_, ?_, ?_, ?_⟩, ?_⟩
    · exact not_lt.mp (not_of_ite_some_eq_none
        (hc ("memory_integrity", m.memory_integrity) (by simp [metricsList])))
    · exact not_lt.mp (not_of_ite_some_eq_none
        (hc ("emotional_balance", m.emotional_balance) (by simp [metricsList])))
    · exact not_lt.mp (not_of_ite_some_eq_none
        (hc ("resource_efficiency", m.resource_efficiency) (by simp [metricsList])))
    · exact not_lt.mp (not_of_ite_some_eq_none
        (hc ("decision_quality", m.decision_quality) (by simp [metricsList])))
    · exact not_lt.mp (not_of_ite_some_eq_none
        (hc ("communication_reliability", m.communication_reliability) (by simp [metricsList])))
    · intro t
      by_contra hge
      have h3 : 3 ≤ countUnhealed log t := by omega
      have hne : countUnhealed log t ≠ 0 := by omega
      have hmem := mem_errorCounts log t hne
      have := not_of_ite_some_eq_none (hr _ hmem)
      exact this h3
  · rintro ⟨⟨h1, h2, h3, h4, h5⟩, hcount⟩
    constructor
    · rw [criticalIssues, List.filterMap_eq_nil_iff]
      intro p hp
      simp only [metricsList, List.mem_cons, List.not_mem_nil, or_false] at hp
      rcases hp with rfl | rfl | rfl | rfl | rfl <;>
        · rw [if_neg]
          simp only [not_lt]
          assumption
    · rw [recurringIssues, List.filterMap_eq_nil_iff]
      intro e he
      have heq := errorCounts_entry_eq log he
      rw [if_neg]
      have hlt := hcount e.1
      omega

/-- C1 amended: with nonnegative logged severities, every health metric
always remains nonnegative — `log_error` only subtracts, floored at 0, and
recovery strategies only add nonnegative gains — but there is no upper
clamp on the recovery side, so metrics may exceed 100 (see the
counterexample). -/
theorem C1_amended_metrics_nonneg :
    (∀ (rand : List ℚ) (ops : List HealOp), (∀ op ∈ ops, opSevNonneg op) →
        metricsNonneg (runOps (freshHealState rand) ops).metrics) ∧
    (∀ (t : String) (sev now : ℚ) (log : List ErrorRecord) (m : HealthMetrics),
        0 ≤ sev → metricsNonneg m → metricsLe (log_error t sev now log m).2 m) ∧
    (∀ (key : String) (sev : ℚ) (s : HealState), 0 ≤ sev →
        metricsLe s.metrics (runStrategy key sev s).1.metrics) := by
  refine ⟨?_, ?_, ?_⟩
  · intro rand ops hops
    have hm : metricsNonneg (freshHealState rand).metrics := by
      norm_num [freshHealState, HealthMetrics.initial, metricsNonneg]
    have hl : logSevNonneg (freshHealState rand).log := by
      intro e he
      simp [freshHealState] at he
    exact (runOps_preserves ops (freshHealState rand) hops hm hl).1
  · exact log_error_metricsLe
  · exact runStrategy_metricsLe

/-- Witness for the C1 amended theorem on a concrete one-operation run. -/
theorem C1_amended_witness :
    (∀ op ∈ [(.logErr "memory_corruption" 20 0 : HealOp)], opSevNonneg op) ∧
    metricsNonneg (runOps (freshHealState []) [.logErr "memory_corruption" 20 0]).metrics := by
  have hops : ∀ op ∈ [(.logErr "memory_corruption" 20 0 : HealOp)], opSevNonneg op := by
    intro op hop
    rcases List.mem_singleton.mp hop with rfl
    norm_num [opSevNonneg]
  exact ⟨hops, C1_amended_metrics_nonneg.1 [] _ hops⟩

/-- Witness for the C3 amended theorem at a concrete state and input. -/
theorem C3_amended_witness :
    (start_warp_sequence 0).is_light_speed = false ∧
    (process_with_warp (start_warp_sequence 0) 7).2 =
      combine_phase_results
        ((get_active_teams (start_warp_sequence 0)).map (fun t => t.process 7)) :=
  ⟨rfl, C3_amended_renormalized_combine.2 (start_warp_sequence 0) 7 rfl⟩


/-- C9: `apply_reward` appends exactly one record `(type, scaled, now)` to
the history, and a later `get_recent_rewards(window)` read at time `now2`
returns that record iff `now2 - now <= window`, leaving all other query
results — and the history itself, `get_recent_rewards` being a pure
query — untouched. -/
theorem C9_reward_window_roundtrip (inc : IncentiveSystem) (es : EmotionalState)
    (rtype : String) (mag t now w : ℚ) (h : rtype ∈ rewardTypeNames) :
    ∃ inc2 es2 scaled, apply_reward inc rtype mag es t = .ok (inc2, es2, scaled) ∧
      inc2.reward_history = inc.reward_history ++ [(rtype, scaled, t)] ∧
      get_recent_rewards inc2 now w =
        get_recent_rewards inc now w ++
          (if now - t ≤ w then [(rtype, scaled)] else []) := by
  refine ⟨{ inc with reward_history :=
              inc.reward_history ++ [(rtype, baseReward inc rtype * mag * inc.reward_scaling, t)] },
          rewardEmotionUpdate rtype (baseReward inc rtype * mag * inc.reward_scaling) es,
          baseReward inc rtype * mag * inc.reward_scaling, ?_, rfl, ?_⟩
  · unfold apply_reward
    rw [if_pos h]
  · unfold get_recent_rewards
    simp only [List.filter_append, List.map_append]
    congr 1
    by_cases hc : now - t ≤ w
    · simp [List.filter, hc]
    · simp [List.filter, hc]

/-- Witness for C9: one `curiosity` reward at time 0, read back at time 2
with window 3. -/
theorem C9_witness :
    "curiosity" ∈ rewardTypeNames ∧
    ∃ inc2 es2 scaled,
      apply_reward IncentiveSystem.default "curiosity" 1 EmotionalState.default 0 =
        .ok (inc2, es2, scaled) ∧
      inc2.reward_history =
        IncentiveSystem.default.reward_history ++ [("curiosity", scaled, 0)] ∧
      get_recent_rewards inc2 2 3 =
        get_recent_rewards IncentiveSystem.default 2 3 ++
          (if (2 : ℚ) - 0 ≤ 3 then [("curiosity", scaled)] else []) :=
  ⟨by decide,
   C9_reward_window_roundtrip IncentiveSystem.default EmotionalState.default
     "curiosity" 1 0 2 3 (by decide)⟩

/-- C10: no recovery-strategy key is a substring of any critical issue's
base subject (the five metric names), so whenever `diagnose` returns only
critical issues, `heal` runs no strategy and returns status
`no_suitable_healing_strategy` with an empty action list, leaving the state
unchanged. -/
theorem C10_critical_issues_have_no_strategy :
    (∀ k ∈ recoveryStrategyKeys, ∀ ty ∈ criticalIssueTypes,
        substrOf k (stripIssueType ty) = false) ∧
    (∀ s : HealState, (∀ i ∈ diagnose s.log s.metrics, i.type ∈ criticalIssueTypes) →
      diagnose s.log s.metrics ≠ [] →
      (heal s).2.status = "no_suitable_healing_strategy" ∧
      (heal s).2.actions_taken = [] ∧ (heal s).1 = s) := by
  constructor
  · decide
  · intro s hcrit hne
    have hnm : ∀ (acc : HealState × List HealAction) (i : Issue),
        List.find? (fun k => substrOf k (stripIssueType i.type)) recoveryStrategyKeys = none →
        healStep acc i = acc := by
      intro acc i hfind
      simp only [healStep, hfind]
    have hstep : ∀ (i : Issue), i.type ∈ criticalIssueTypes →
        ∀ acc : HealState × List HealAction, healStep acc i = acc := by
      intro i hi acc
      simp only [criticalIssueTypes, List.mem_cons, List.not_mem_nil, or_false] at hi
      rcases hi with h | h | h | h | h <;>
        exact hnm acc i (by rw [h]; decide)
    have hfold : ∀ (l : List Issue), (∀ i ∈ l, i.type ∈ criticalIssueTypes) →
        ∀ acc : HealState × List HealAction, l.foldl healStep acc = acc := by
      intro l
      induction l with
      | nil => intro _ acc; rfl
      | cons i rest ih =>
          intro hl acc
          rw [List.foldl_cons, hstep i (hl i (List.mem_cons_self i rest))]
          exact ih (fun j hj => hl j (List.mem_cons_of_mem i hj)) acc
    have hempty : (diagnose s.log s.metrics).isEmpty = false := by
      cases hd : diagnose s.log s.metrics with
      | nil => exact absurd hd hne
      | cons a l => rfl
    have htake : ∀ i ∈ (diagnose s.log s.metrics).take 3, i.type ∈ criticalIssueTypes :=
      fun i hi => hcrit i (List.take_subset 3 _ hi)
    have hfold3 := hfold _ htake (s, [])
    simp only [heal, hempty, Bool.false_eq_true, if_false, hfold3]
    refine ⟨rfl, trivial, ?_⟩
    have hmap : (s.log.map (fun e =>
        if e.healed = true then e
        else if (List.any ([] : List HealAction) fun a => substrOf e.type a.issue) = true then
          { e with healed := true }
        else e)) = s.log := by
      have hfun : ∀ e : ErrorRecord,
          (if e.healed = true then e
           else if (List.any ([] : List HealAction) fun a => substrOf e.type a.issue) = true then
             { e with healed := true }
           else e) = e := by
        intro e
        simp
      calc s.log.map _ = s.log.map id := List.map_congr_left (fun e _ => hfun e)
        _ = s.log := List.map_id s.log
    rw [hmap]


/-- Witness for C10 on the concrete state whose only issue is the critical
`memory_integrity` one. -/
theorem C10_witness :
    (∀ i ∈ diagnose criticalOnlyState.log criticalOnlyState.metrics,
        i.type ∈ criticalIssueTypes) ∧
    diagnose criticalOnlyState.log criticalOnlyState.metrics ≠ [] ∧
    (heal criticalOnlyState).2.status = "no_suitable_healing_strategy" ∧
    (heal criticalOnlyState).2.actions_taken = [] ∧
    (heal criticalOnlyState).1 = criticalOnlyState := by
  have hd : diagnose criticalOnlyState.log criticalOnlyState.metrics =
      [⟨"critical_memory_integrity", 2, none,
        "Critical memory integrity issue detected"⟩] := by
    norm_num [criticalOnlyState, freshHealState, diagnose, rawIssues, criticalIssues,
      metricsList, recurringIssues, errorCounts, sortByDesc, insertByDesc,
      HealthMetrics.initial, List.foldl,
      (by decide : "critical_" ++ "memory_integrity" = "critical_memory_integrity"),
      (by decide : "Critical " ++ replaceUnderscore "memory_integrity" ++ " issue detected" =
        "Critical memory integrity issue detected")]
  have h1 : ∀ i ∈ diagnose criticalOnlyState.log criticalOnlyState.metrics,
      i.type ∈ criticalIssueTypes := by
    rw [hd]
    intro i hi
    rcases List.mem_singleton.mp hi with rfl
    decide
  have h2 : diagnose criticalOnlyState.log criticalOnlyState.metrics ≠ [] := by
    rw [hd]
    simp
  have h3 := C10_critical_issues_have_no_strategy.2 criticalOnlyState h1 h2
  exact ⟨h1, h2, h3.1, h3.2.1, h3.2.2⟩

/-! ## Lemmas for the phase orchestrator -/

theorem applyEnv_phase (s : WarpState) (e : TickEnv) : (applyEnv s e).phase = s.phase := rfl

theorem applyEnv_start (s : WarpState) (e : TickEnv) :
    (applyEnv s e).current_phase_start_time = s.current_phase_start_time := rfl

theorem applyEnv_error_rate (s : WarpState) (e : TickEnv) :
    (applyEnv s e).error_rate = e.error_rate := rfl

theorem revert_phase_phase (s : WarpState) (now : ℚ) :
    (revert_phase s now).phase = if 1 < s.phase then s.phase - 1 else s.phase := by
  unfold revert_phase
  split <;> rfl

theorem dispatchCheck_phase (s : WarpState) (now : ℚ) (idx : ℕ) :
    (dispatchCheck s now idx).phase = s.phase + 1 ∨ (dispatchCheck s now idx).phase = s.phase := by
  by_cases hc : (check_team_efficiency s now idx (8/10) 3).1 = true
  · left
    simp only [dispatchCheck, hc, if_true]
    rfl
  · right
    simp only [dispatchCheck, hc, Bool.false_eq_true, if_false]

theorem dispatchPhase_bounds (s : WarpState) (now : ℚ) (h1 : 1 ≤ s.phase)
    (h5 : s.phase ≤ 5) :
    1 ≤ (dispatchPhase s now).phase ∧ (dispatchPhase s now).phase ≤ 5 := by
  unfold dispatchPhase
  split_ifs with hp1 hp2 hp3 hp4 hp5
  · rcases dispatchCheck_phase s now 0 with h | h <;> rw [h] <;> omega
  · rcases dispatchCheck_phase s now 1 with h | h <;> rw [h] <;> omega
  · rcases dispatchCheck_phase s now 2 with h | h <;> rw [h] <;> omega
  · rcases dispatchCheck_phase s now 3 with h | h <;> rw [h] <;> omega
  · have : (initiate_warp_drive s).phase = s.phase := rfl
    rw [this]
    omega
  · exact ⟨h1, h5⟩

theorem tick_phase_bounds (e : TickEnv) (s : WarpState) (h1 : 1 ≤ s.phase)
    (h5 : s.phase ≤ 5) : 1 ≤ (tick e s).phase ∧ (tick e s).phase ≤ 5 := by
  by_cases hh : s.halted = true
  · simp only [tick, hh, if_true]
    exact ⟨h1, h5⟩
  · simp only [tick, hh, Bool.false_eq_true, if_false]
    by_cases ho : e.overloaded = true
    · simp only [ho, if_true, applyEnv_phase]
      exact ⟨h1, h5⟩
    · simp only [ho, Bool.false_eq_true, if_false]
      by_cases hr : 10 < e.now - (applyEnv s e).current_phase_start_time ∧
          (1 : ℚ)/10 < (applyEnv s e).error_rate
      · rw [if_pos hr, revert_phase_phase, applyEnv_phase]
        split_ifs <;> omega
      · rw [if_neg hr]
        exact dispatchPhase_bounds (applyEnv s e) e.now
          (by rw [applyEnv_phase]; exact h1) (by rw [applyEnv_phase]; exact h5)

theorem runWarp_phase_bounds (envs : List TickEnv) :
    ∀ s : WarpState, 1 ≤ s.phase → s.phase ≤ 5 →
      1 ≤ (runWarp s envs).phase ∧ (runWarp s envs).phase ≤ 5 := by
  induction envs with
  | nil =>
      intro s h1 h5
      exact ⟨h1, h5⟩
  | cons e rest ih =>
      intro s h1 h5
      have h := tick_phase_bounds e s h1 h5
      exact ih (tick e s) h.1 h.2

/-- C5 amended: the phase value stays within [1,5] throughout every run of
the loop; a halted loop stays halted (the terminal action runs at most once
per run); and whenever the loop evaluates the phase-5 dispatch — not blocked
by resource overload and not reverted by the stability check — it performs
the terminal action (light speed on, all teams active) and halts.  But
reaching phase 5 is NOT one-way: the stability check can revert phase 5 to 4
before the dispatch is reached (see the counterexample). -/
theorem C5_amended_phase_machine :
    (∀ (t0 : ℚ) (envs : List TickEnv),
        1 ≤ (runWarp (start_warp_sequence t0) envs).phase ∧
        (runWarp (start_warp_sequence t0) envs).phase ≤ 5) ∧
    (∀ (e : TickEnv) (s : WarpState), s.halted = true → tick e s = s) ∧
    (∀ (e : TickEnv) (s : WarpState), s.halted = false → s.phase = 5 →
        e.overloaded = false →
        ¬ (10 < e.now - s.current_phase_start_time ∧ (1 : ℚ)/10 < e.error_rate) →
        (tick e s).halted = true ∧ (tick e s).is_light_speed = true ∧
          ∀ t ∈ (tick e s).teams, t.is_active = true) := by
  refine ⟨?_, ?_, ?_⟩
  · intro t0 envs
    exact runWarp_phase_bounds envs (start_warp_sequence t0)
      (by norm_num [start_warp_sequence]) (by norm_num [start_warp_sequence])
  · intro e s hh
    simp [tick, hh]
  · intro e s hh hp ho hr
    have hr2 : ¬ (10 < e.now - (applyEnv s e).current_phase_start_time ∧
        (1 : ℚ)/10 < (applyEnv s e).error_rate) := by
      rw [applyEnv_start, applyEnv_error_rate]
      exact hr
    have h5e : (applyEnv s e).phase = 5 := by
      rw [applyEnv_phase]
      exact hp
    have htick : tick e s = initiate_warp_drive (applyEnv s e) := by
      simp only [tick, hh, Bool.false_eq_true, if_false, ho, if_neg hr2]
      simp only [dispatchPhase, h5e]
      norm_num
    rw [htick]
    refine ⟨rfl, rfl, ?_⟩
    intro t ht
    rcases List.mem_map.mp ht with ⟨u, _, rfl⟩
    rfl

/-- C5 counterexample: along `revertTrace` the run reaches phase 5 after
four ticks (without the terminal action having run), and two ticks later is
back at phase 4, still without light speed: a resource-overload stall past
the stability window plus a high error rate reverts the terminal phase. -/
theorem C5_counterexample :
    (runWarp (start_warp_sequence 0) (revertTrace.take 4)).phase = 5 ∧
    (runWarp (start_warp_sequence 0) (revertTrace.take 4)).is_light_speed = false ∧
    (runWarp (start_warp_sequence 0) (revertTrace.take 4)).halted = false ∧
    (runWarp (start_warp_sequence 0) revertTrace).phase = 4 ∧
    (runWarp (start_warp_sequence 0) revertTrace).is_light_speed = false := by
  norm_num [runWarp, revertTrace, calmTick, start_warp_sequence, initialTeams, tick,
    applyEnv, applyEff, setTeamActive, check_team_efficiency, dispatchCheck, dispatchPhase,
    advance_phase, revert_phase, initiate_warp_drive, List.foldl, List.take]

/-- Witness for the C5 amended theorem: the terminal dispatch at a concrete
unblocked phase-5 state halts with light speed and every team active. -/
theorem C5_witness :
    (tick ⟨1, false, 0, []⟩ phase5State).halted = true ∧
    (tick ⟨1, false, 0, []⟩ phase5State).is_light_speed = true ∧
    ∀ t ∈ (tick ⟨1, false, 0, []⟩ phase5State).teams, t.is_active = true :=
  C5_amended_phase_machine.2.2 ⟨1, false, 0, []⟩ phase5State rfl rfl rfl (by norm_num [phase5State])

end Ariel
